import Mathlib

/-!
Verification development for the deep-research-agent repository.

The Python sources are shallowly embedded: strings become `List Char`,
Python floats become `ℚ`, dictionaries become structures or association
lists, and the external collaborators (the LLM client, the HTTP tools,
`json.loads`/pydantic validation, tiktoken, the wall clock) become
explicit parameters of an environment record.  Every definition mirrors a
specific function of the repository; the source file and symbol are named
in its doc comment.
-/

namespace DeepResearch

/-- Strings are embedded as lists of characters. -/
abbrev Str := List Char

/-- Helper: character by code point (used for characters that are awkward
as literals: braces, apostrophe, backtick). -/
def chr (n : Nat) : Char := Char.ofNat n

/-- Python `str.strip()` whitespace set (space, tab, newline, carriage
return, vertical tab, form feed). -/
def isPyWs (c : Char) : Bool :=
  c == ' ' || c == '\t' || c == '\n' || c == '\r' || c == chr 11 || c == chr 12

/-- Python `str.lstrip()`. -/
def pyStripLeft (l : Str) : Str := l.dropWhile isPyWs

/-- Python `str.rstrip()`. -/
def pyStripRight (l : Str) : Str := (l.reverse.dropWhile isPyWs).reverse

/-- Python `str.strip()`. -/
def pyStrip (l : Str) : Str := pyStripRight (pyStripLeft l)

/-- `"\n".join`-style join without a trailing newline. -/
def interNl (ls : List Str) : Str := (ls.intersperse ['\n']).flatten

/-- Join a list of lines where every line is terminated by `'\n'`
(the shape produced by a triple-quoted Python f-string that ends in a
newline). -/
def joinNl (ls : List Str) : Str := (ls.map (· ++ ['\n'])).flatten

/-- Python `str.split("\n")`. -/
def splitNl : Str → List Str
  | [] => [[]]
  | c :: rest =>
    if c = '\n' then [] :: splitNl rest
    else
      match splitNl rest with
      | [] => [[c]]
      | seg :: segs => (c :: seg) :: segs

/-- Auxiliary for `pySplitSeq`: split `s` on every non-overlapping
occurrence of the pattern `p :: ps`, scanning left to right; `acc` is the
current segment, reversed.  Each step consumes at least one character, so
recursion is on a fuel bounded below by `s.length` (the fuel-exhausted
branch is unreachable at the fuel the wrapper supplies). -/
def splitSeqGo (p : Char) (ps : Str) : Nat → Str → Str → List Str
  | _, [], acc => [acc.reverse]
  | 0, s, acc => [acc.reverse ++ s]
  | fuel + 1, c :: rest, acc =>
    if (p :: ps).isPrefixOf (c :: rest) then
      acc.reverse :: splitSeqGo p ps fuel (rest.drop ps.length) []
    else
      splitSeqGo p ps fuel rest (c :: acc)

/-- Python `s.split(sep)` for a non-empty separator (Python raises on an
empty separator; our uses always pass a literal). -/
def pySplitSeq (pat s : Str) : List Str :=
  match pat with
  | [] => [s]
  | p :: ps => splitSeqGo p ps s.length s []

/-- Auxiliary for `splitOnceSeq`. -/
def splitOnceGo (p : Char) (ps : Str) : Str → Str → Option (Str × Str)
  | [], _ => none
  | c :: rest, acc =>
    if (p :: ps).isPrefixOf (c :: rest) then
      some (acc.reverse, rest.drop ps.length)
    else
      splitOnceGo p ps rest (c :: acc)

/-- Split at the first occurrence of a pattern, returning the text before
and after it (used to model `re.search` with a literal delimiter). -/
def splitOnceSeq (pat s : Str) : Option (Str × Str) :=
  match pat with
  | [] => some ([], s)
  | p :: ps => splitOnceGo p ps s []

end DeepResearch

namespace DeepResearch

/-! ### `LeadResearcher._create_plan` worker-count rule
(src/deep_research/agent/orchestrator.py, line 155):
`num_workers = 1 if complexity < 0.3 else (3 if complexity < 0.6 else 5)`.
Python floats are modelled as rationals. -/

/-- Worker count derived from the complexity score. -/
def numWorkersFor (complexity : ℚ) : Nat :=
  if complexity < 3/10 then 1 else (if complexity < 6/10 then 3 else 5)

/-! ### `LeadResearcher._strip_markdown_json`
(src/deep_research/agent/orchestrator.py, lines 533-586). -/

/-- The backtick character. -/
def backtick : Char := chr 96

/-- Membership in the Python string `"{["`. -/
def isOpenBr (c : Char) : Bool := c == chr 123 || c == '['

/-- Membership in the Python string `"}]"`. -/
def isCloseBr (c : Char) : Bool := c == chr 125 || c == ']'

/-- The markdown code-fence removal step of `_strip_markdown_json`
(lines 538-543): if the stripped text starts with three backticks, drop
through the first newline, and if the remainder ends with three
backticks, drop them and strip again. -/
def stripCodeFences (r : Str) : Str :=
  if [backtick, backtick, backtick].isPrefixOf r then
    let r1 := if r.contains '\n' then (r.dropWhile (fun c => !(c == '\n'))).drop 1 else r
    if [backtick, backtick, backtick].isSuffixOf r1 then pyStrip (r1.take (r1.length - 3))
    else r1
  else r

/-- The bracket-matching scan of `_strip_markdown_json` (lines 556-584):
starting at the first `{`/`[`, track nesting depth with string and
escape state; when the depth returns to zero the consumed span is the
extracted JSON text.  `none` means the scan fell off the end (Python's
final `return raw`). -/
def jsonSpan : Str → Int → Bool → Bool → Option Str
  | [], _, _, _ => none
  | c :: rest, depth, inStr, esc =>
    if esc then (jsonSpan rest depth inStr false).map (c :: ·)
    else if c == '\\' then (jsonSpan rest depth inStr true).map (c :: ·)
    else if c == '"' then (jsonSpan rest depth (!inStr) false).map (c :: ·)
    else if !inStr && isOpenBr c then (jsonSpan rest (depth + 1) inStr false).map (c :: ·)
    else if !inStr && isCloseBr c then
      if depth - 1 == 0 then some [c]
      else (jsonSpan rest (depth - 1) inStr false).map (c :: ·)
    else (jsonSpan rest depth inStr false).map (c :: ·)

/-- The span-extraction stage of `_strip_markdown_json` (lines 545-586):
`json_start` is the first `{`/`[` (no bracket at all returns the text
unchanged, Python's `json_start == -1` branch); a balanced span starting
there is returned, otherwise the text is returned unchanged. -/
def stripSpanStage (r : Str) : Str :=
  if (r.dropWhile (fun c => !(isOpenBr c))).isEmpty then r
  else
    match jsonSpan (r.dropWhile (fun c => !(isOpenBr c))) 0 false false with
    | some span => span
    | none => r

/-- `LeadResearcher._strip_markdown_json`: strip, remove markdown fences,
then return the first balanced `{`/`[` … `}`/`]` span (string-escape
aware); if no bracket or no balanced span is found, return the
(fence-stripped) text unchanged. -/
def strip_markdown_json (raw : Str) : Str :=
  stripSpanStage (stripCodeFences (pyStrip raw))

/-- `SubTask` (orchestrator.py lines 31-37): pydantic model with the four
required fields. -/
structure SubTask where
  id : Str
  objective : Str
  tools : List Str
  expected_output : Str
deriving DecidableEq

/-- `LeadResearcher._parse_sub_tasks` (lines 598-626).  `json.loads` and
the per-element `SubTask.model_validate` are external libraries
(`json`, pydantic); they are modelled as the `decode` parameter, a fixed
function of the extracted text.  The in-repo steps are `_stringify_content`
(identity on plain strings, which is how we model LLM content) followed by
`_strip_markdown_json`. -/
def parse_sub_tasks (decode : Str → Except Str (List SubTask)) (content : Str) :
    Except Str (List SubTask) :=
  decode (strip_markdown_json content)

/-- A text that is exactly one balanced JSON span for the scanner of
`_strip_markdown_json` (every serialised JSON array is;
braces/brackets inside string literals are tracked by the scanner's
string state). -/
def balancedJson (j : Str) : Prop := jsonSpan j 0 false false = some j

instance (j : Str) : Decidable (balancedJson j) :=
  inferInstanceAs (Decidable (_ = _))

/-- Wrap a text in markdown code fences (` ```json … ``` `), the way LLMs
emit JSON. -/
def mdFence (j : Str) : Str :=
  [backtick, backtick, backtick, 'j', 's', 'o', 'n', '\n'] ++ j ++
    ['\n', backtick, backtick, backtick]


/-! ### The ReAct engine (`src/deep_research/agent/react.py`) -/

/-- A structured tool invocation as emitted by the LLM
(`response.tool_calls`); the dispatch in `_step` matches on the tool
name, so the constructors carry it.  `unknown` covers names matching no
tool instance.  List-typed arguments are coerced to single values inside
the langchain tools before any effect happens, so requests are modelled
already-coerced. -/
inductive ToolReq
  | search (query : Str) (maxResults : Nat)
  | fetch (url : Str)
  | unknown (name : Str)
deriving DecidableEq

/-- Langchain message kinds used by `ReactAgent`
(`SystemMessage`/`HumanMessage`/`AIMessage`/`ToolMessage`). -/
inductive Msg
  | system (content : Str)
  | human (content : Str)
  | ai (content : Str) (toolCalls : List ToolReq)
  | tool (content : Str)
deriving DecidableEq

/-- An LLM completion: text content, structured tool calls,
`usage_metadata` (input/output token counts) when the provider supplies
it.  `AIMessage.content` may also be a list of blocks; `_step` flattens
it to text, so we model content as text. -/
structure LLMResponse where
  content : Str
  tool_calls : List ToolReq
  usage : Option (Nat × Nat)
deriving DecidableEq

/-- The external collaborators of one worker run: the LLM client
(`get_llm(...)`, may raise), the `SearchTool`/`FetchTool` results (these
tools catch their own errors and report failure via their result, never
by raising), and `utils.tokens.count_tokens` (tiktoken). -/
structure ReactEnv where
  llm : List Msg → Except Str LLMResponse
  searchContent : Str → Nat → Str
  fetchSuccess : Str → Bool
  fetchContent : Str → Str
  countTokens : Str → Nat

/-- One recorded tool call (the dict appended to
`iteration_tool_calls`, react.py lines 337-345); wall-clock timestamp and
duration are external and omitted.  `success` is `_step`'s
exception flag (line 305), not the tool's own result flag. -/
structure ToolCallRec where
  req : ToolReq
  result : Str
  success : Bool
  iteration : Nat
deriving DecidableEq

/-- One recorded ReAct iteration (the dict appended to
`self.react_iterations`); timestamps omitted (wall clock). -/
structure IterRec where
  iteration : Nat
  thought : Str
  actions : List ToolCallRec
  observation : Str
deriving DecidableEq

/-- The mutable instance state of a `ReactAgent`
(react.py lines 122-128).  `visited_urls` is a Python `set`; it is
modelled as an insertion-ordered duplicate-free list. -/
structure AgentState where
  messages : List Msg
  iterations : Nat
  tokens_used : Nat
  prompt_tokens : Nat
  completion_tokens : Nat
  visited_urls : List Str
  react_iterations : List IterRec
deriving DecidableEq

/-- The immutable configuration of a `ReactAgent` (constructor
arguments). -/
structure AgentConfig where
  model : Str
  max_iterations : Nat
  max_tokens : Nat
  worker_id : Str
deriving DecidableEq

/-- `ReactAgent.__init__` default `max_iterations` (react.py line 42). -/
def reactDefaultMaxIterations : Nat := 20

/-- `ReactAgent.__init__` default `max_tokens` (react.py line 43). -/
def reactDefaultMaxTokens : Nat := 50000

/-- The iteration budget `WorkerAgent` passes to its `ReactAgent`
(worker.py line 42: `max_iterations=15`, "Shorter budget than Lead"). -/
def workerMaxIterations : Nat := 15

/-- `SupportedModel.default().model_name` (models.py). -/
def defaultModelName : Str := String.toList "alibaba/tongyi-deepresearch-30b-a3b"

/-- A fresh `ReactAgent`'s state (react.py lines 122-128). -/
def initialAgentState : AgentState :=
  { messages := [], iterations := 0, tokens_used := 0, prompt_tokens := 0,
    completion_tokens := 0, visited_urls := [], react_iterations := [] }

/-- `self.visited_urls.add(url)` on the set model. -/
def addVisited (v : List Str) (u : Str) : List Str :=
  if u ∈ v then v else v ++ [u]

/-- The tool name as dispatched on in `_step` (line 316). -/
def toolNameOf : ToolReq → Str
  | .search _ _ => String.toList "search"
  | .fetch _ => String.toList "fetch"
  | .unknown n => n

/-- The answer delimiter checked by `_has_answer`. -/
def ANSWER_OPEN : Str := String.toList "<answer>"

/-- The closing answer delimiter used by `_extract_answer`. -/
def ANSWER_CLOSE : Str := String.toList "</answer>"

/-- Python `pat in s` on strings: some occurrence of `pat` exists. -/
def isInfixB (pat s : Str) : Bool := (splitOnceSeq pat s).isSome

/-- `ReactAgent._has_answer`: `"<answer>" in content`. -/
def has_answer (content : Str) : Bool := isInfixB ANSWER_OPEN content

/-- `ReactAgent._extract_answer`:
`re.search(r"<answer>(.*?)</answer>", content, re.DOTALL)` takes the text
between the first `<answer>` and the earliest following `</answer>`,
stripped; if the pattern does not match, the whole content is
returned. -/
def extract_answer (content : Str) : Str :=
  match splitOnceSeq ANSWER_OPEN content with
  | none => content
  | some (_, rest) =>
    match splitOnceSeq ANSWER_CLOSE rest with
    | none => content
    | some (payload, _) => pyStrip payload

/-- History truncation in `_step` (lines 210-216): when more than 20
messages, keep the first (system) message plus the last 19. -/
def truncateMessages (msgs : List Msg) : List Msg :=
  if msgs.length > 20 then
    match msgs with
    | [] => []
    | m0 :: _ => m0 :: msgs.drop (msgs.length - 19)
  else msgs

/-- `ReactAgent._record_llm_usage`: prefer provider usage metadata,
otherwise approximate completion tokens by tokenising the response
text; `tokens_used` is their sum. -/
def recordUsage (env : ReactEnv) (st : AgentState) (resp : LLMResponse) : AgentState :=
  let stP :=
    match resp.usage with
    | some u =>
      { st with prompt_tokens := st.prompt_tokens + u.1
                completion_tokens := st.completion_tokens + u.2 }
    | none =>
      { st with completion_tokens := st.completion_tokens + env.countTokens resp.content }
  { stP with tokens_used := stP.prompt_tokens + stP.completion_tokens }

/-- Output of executing one structured tool call (the body of the
`for tool_call in response.tool_calls` loop in `_step`). -/
structure ToolStepOut where
  visited : List Str
  record : ToolCallRec
  obsPiece : Str
  msg : Msg

/-- Execute one tool call (react.py lines 302-350).  The langchain
`fetch` tool records the URL as visited exactly when the fetch result
reports success (lines 110-114); `search` never touches it.  A name
matching no tool instance executes nothing but is still recorded (with
the initial empty result and `success=True`) and still appends an empty
`ToolMessage`. -/
def execToolCall (env : ReactEnv) (iter : Nat) (visited : List Str) :
    ToolReq → ToolStepOut
  | .search q n =>
    let res := env.searchContent q n
    { visited := visited
      record := { req := .search q n, result := res, success := true, iteration := iter }
      obsPiece := String.toList "Tool search output:\n" ++ res.take 500 ++
        String.toList "...\n\n"
      msg := .tool res }
  | .fetch u =>
    let res := env.fetchContent u
    { visited := if env.fetchSuccess u then addVisited visited u else visited
      record := { req := .fetch u, result := res, success := true, iteration := iter }
      obsPiece := String.toList "Tool fetch output:\n" ++ res.take 500 ++
        String.toList "...\n\n"
      msg := .tool res }
  | .unknown n =>
    { visited := visited
      record := { req := .unknown n, result := [], success := true, iteration := iter }
      obsPiece := []
      msg := .tool [] }

/-- Accumulated output of the tool-call loop of one `_step`. -/
structure ToolsOut where
  visited : List Str
  recs : List ToolCallRec
  observation : Str
  msgs : List Msg
deriving DecidableEq

/-- The sequential tool-call loop of `_step`. -/
def execToolCalls (env : ReactEnv) (iter : Nat) :
    List ToolReq → List Str → ToolsOut
  | [], visited => { visited := visited, recs := [], observation := [], msgs := [] }
  | r :: rs, visited =>
    let o := execToolCall env iter visited r
    let rest := execToolCalls env iter rs o.visited
    { visited := rest.visited, recs := o.record :: rest.recs,
      observation := o.obsPiece ++ rest.observation, msgs := o.msg :: rest.msgs }

/-- `ReactAgent._step`: bump the iteration counter, truncate history,
call the LLM (an LLM exception becomes the re-raised
`RuntimeError("LLM invocation failed: …")`), record usage, append the AI
message; if the content carries the answer delimiter, record a final
thought-only iteration and return; otherwise execute the tool calls
sequentially, appending one `ToolMessage` per call, and record the full
iteration. -/
def reactStep (env : ReactEnv) (st : AgentState) : Except Str (AgentState × Str) :=
  let stIter := { st with iterations := st.iterations + 1 }
  let msgs := truncateMessages stIter.messages
  match env.llm msgs with
  | .error e => .error (String.toList "LLM invocation failed: " ++ e)
  | .ok resp =>
    let st2 := recordUsage env { stIter with messages := msgs } resp
    let st3 := { st2 with messages := st2.messages ++ [Msg.ai resp.content resp.tool_calls] }
    if has_answer resp.content then
      .ok ({ st3 with react_iterations := st3.react_iterations ++
        [{ iteration := st3.iterations, thought := resp.content, actions := [],
           observation := [] }] }, resp.content)
    else
      let tout := execToolCalls env st3.iterations resp.tool_calls st3.visited_urls
      .ok ({ st3 with
        visited_urls := tout.visited
        messages := st3.messages ++ tout.msgs
        react_iterations := st3.react_iterations ++
          [{ iteration := st3.iterations, thought := resp.content, actions := tout.recs,
             observation := tout.observation }] }, resp.content)

/-- Python string `<` (code-point lexicographic), as used by `sorted`. -/
def strLeB : Str → Str → Bool
  | [], _ => true
  | _ :: _, [] => false
  | a :: as, b :: bs => if a < b then true else (if b < a then false else strLeB as bs)

/-- Python `sorted` on strings. -/
def pySortedStrs (l : List Str) : List Str :=
  List.insertionSort (fun a b => strLeB a b = true) l

/-- Report metadata (the dicts built in `ReactAgent.research` and in the
failure paths of `WorkerAgent.execute` / `_worker_execution`).  The
pricing/cost entries added by `_build_cost_metadata` are omitted: no
claim mentions them. -/
structure Meta where
  error : Option Str := none
  model : Str := []
  iterations : Nat := 0
  tokens_used : Nat := 0
  prompt_tokens : Nat := 0
  completion_tokens : Nat := 0
  visited_sources : Nat := 0
  react_iterations : List IterRec := []
  worker_id : Option Str := none
deriving DecidableEq

/-- `ResearchReport` (react.py lines 26-33). -/
structure ResearchReport where
  query : Str
  content : Str
  sources : List Str
  metadata : Meta
deriving DecidableEq

/-- The report returned when the answer delimiter is found
(react.py lines 150-176). -/
def answeredReport (cfg : AgentConfig) (q : Str) (st : AgentState) (content : Str) :
    ResearchReport :=
  let vs := pySortedStrs st.visited_urls
  { query := q
    content := extract_answer content
    sources := vs
    metadata := {
      error := none
      model := cfg.model
      iterations := st.iterations
      tokens_used := st.tokens_used
      prompt_tokens := st.prompt_tokens
      completion_tokens := st.completion_tokens
      visited_sources := vs.length
      react_iterations := st.react_iterations } }

/-- The report returned when the iteration budget is exhausted
(react.py lines 185-202); its metadata records `error: max_iterations`
and no `react_iterations` entry. -/
def exhaustedReport (cfg : AgentConfig) (q : Str) (st : AgentState) : ResearchReport :=
  let vs := pySortedStrs st.visited_urls
  { query := q
    content := String.toList "Research incomplete due to iteration limit."
    sources := vs
    metadata := {
      error := some (String.toList "max_iterations")
      model := cfg.model
      iterations := st.iterations
      tokens_used := st.tokens_used
      prompt_tokens := st.prompt_tokens
      completion_tokens := st.completion_tokens
      visited_sources := vs.length } }

/-- The soft budget directive injected when token usage exceeds 90% of
the budget (react.py lines 179-183). -/
def budgetDirective : Str :=
  String.toList "Token budget nearly exhausted. Provide answer now."

/-- `self.tokens_used > self.max_tokens * 0.9`, stated over integers as
`10 * tokens_used > 9 * max_tokens`; for integer token counts this is
the same comparison (and Python's `50_000 * 0.9` is the exact float
`45000.0`). -/
def overBudget (cfg : AgentConfig) (st : AgentState) : Bool :=
  decide (st.tokens_used * 10 > cfg.max_tokens * 9)

/-- The `while self.iterations < self.max_iterations` loop of
`ReactAgent.research`, with fuel `max_iterations - iterations`: answer
check, then budget check, then the next step; fuel 0 is the
max-iterations exit. -/
def researchLoop (env : ReactEnv) (cfg : AgentConfig) (q : Str) :
    Nat → AgentState → Except Str (ResearchReport × AgentState)
  | 0, st => .ok (exhaustedReport cfg q st, st)
  | fuel + 1, st =>
    match reactStep env st with
    | .error e => .error e
    | .ok (st1, content) =>
      if has_answer content then .ok (answeredReport cfg q st1 content, st1)
      else
        let st2 :=
          if overBudget cfg st1 then
            { st1 with messages := st1.messages ++ [Msg.system budgetDirective] }
          else st1
        researchLoop env cfg q fuel st2

/-- Stand-in for the literal `RESEARCH_SYSTEM_PROMPT` text (prompts.py);
the prompt's wording flows into the LLM parameter only and no claim
depends on it, so the text is not reproduced. -/
def RESEARCH_SYSTEM_PROMPT : Str := String.toList "RESEARCH_SYSTEM_PROMPT"

/-- The message history installed at the start of every `research` call
(react.py lines 141-144). -/
def initMessages (q : Str) : List Msg :=
  [.system RESEARCH_SYSTEM_PROMPT, .human (String.toList "Research this topic: " ++ q)]

/-- The per-call resets at the top of `ReactAgent.research`
(react.py lines 133-144): field by field, exactly the assignments the
source performs on the incoming instance state. -/
def resetForRun (st : AgentState) (q : Str) : AgentState :=
  { st with
    iterations := 0
    tokens_used := 0
    prompt_tokens := 0
    completion_tokens := 0
    visited_urls := []
    react_iterations := []
    messages := initMessages q }

/-- `ReactAgent.research`, also returning the final instance state. -/
def reactResearch (env : ReactEnv) (cfg : AgentConfig) (st : AgentState) (q : Str) :
    Except Str (ResearchReport × AgentState) :=
  researchLoop env cfg q cfg.max_iterations (resetForRun st q)


/-! ### The session store
(`src/deep_research/obsidian/writer.py`, `loader.py`, `templates.py`,
`src/deep_research/repl/commands.py`).

The vault is a map from paths (segment lists under the vault root) to
files.  YAML frontmatter is kept structured: `yaml.dump`/`yaml.safe_load`
are external library calls assumed to round-trip the scalar values the
writer emits; markdown *bodies* are modelled character-exactly, because
the loader re-parses them with in-repo string code. -/

/-- Decimal digit character. -/
def digitChar10 (n : Nat) : Char := chr (48 + n % 10)

/-- Auxiliary for `natStr` with structural fuel (so the kernel can
evaluate it). -/
def natStrGo : Nat → Nat → Str
  | 0, _ => []
  | fuel + 1, n =>
    if n < 10 then [digitChar10 n]
    else natStrGo fuel (n / 10) ++ [digitChar10 (n % 10)]

/-- Python `str(n)` for a natural number. -/
def natStr (n : Nat) : Str := natStrGo (n + 1) n

/-- Python `str(i)` for an integer. -/
def intStr (i : Int) : Str :=
  if i < 0 then '-' :: natStr i.natAbs else natStr i.natAbs

/-- Zero-pad a numeral to `width` digits. -/
def padZeros (width : Nat) (s : Str) : Str :=
  List.replicate (width - s.length) '0' ++ s

/-- Python `f"{x:.2f}"`, approximated by truncating towards zero (CPython
rounds ties to even; the only consumers of these rendered numbers are
humans — the loader never parses them back). -/
def pyFormat2 (q : ℚ) : Str :=
  let c : Int := q.num * 100 / q.den
  intStr (c / 100) ++ '.' :: padZeros 2 (natStr (c.natAbs % 100))

/-- Python `f"{x:.4f}"`, same approximation as `pyFormat2`. -/
def pyFormat4 (q : ℚ) : Str :=
  let c : Int := q.num * 10000 / q.den
  intStr (c / 10000) ++ '.' :: padZeros 4 (natStr (c.natAbs % 10000))

/-- Python `s.strip(chars)`: remove the characters of `chars` (as a set)
from both ends. -/
def pyStripSet (chars s : Str) : Str :=
  ((s.dropWhile (fun c => chars.contains c)).reverse.dropWhile
    (fun c => chars.contains c)).reverse

/-- Python `s.replace(pat, "")` (used by the trace parser on the
`**Thought**:` tag). -/
def pyRemoveAll (pat s : Str) : Str := (pySplitSeq pat s).flatten

/-- Python `s.lower()` (ASCII suffices for our tags). -/
def pyLower (s : Str) : Str := s.map Char.toLower

/-- Auxiliary for `pySplitWs`; `acc` is the current word, reversed. -/
def pySplitWsGo : Str → Str → List Str
  | [], acc => if acc.isEmpty then [] else [acc.reverse]
  | c :: rest, acc =>
    if isPyWs c then
      if acc.isEmpty then pySplitWsGo rest [] else acc.reverse :: pySplitWsGo rest []
    else pySplitWsGo rest (c :: acc)

/-- Python `s.split()` — split on whitespace runs, no empty fields. -/
def pySplitWs (s : Str) : List Str := pySplitWsGo s []

/-- `ObsidianWriter._generate_tags`: lowercase words longer than 3
characters, stripped of `?.,!`, at most 5. -/
def generateTags (query : Str) : List Str :=
  (((pySplitWs (pyLower query)).filter (fun w => 3 < w.length)).map
    (fun w => pyStripSet (String.toList "?.,!") w)).take 5

/-- String-keyed dictionary (Python `dict[str, str]`) with
insert-or-replace. -/
def dictInsert (d : List (Str × Str)) (k v : Str) : List (Str × Str) :=
  if d.any (fun e => e.1 == k) then d.map (fun e => if e.1 == k then (k, v) else e)
  else d ++ [(k, v)]

/-- Dictionary lookup. -/
def dictGet (d : List (Str × Str)) (k : Str) : Option Str :=
  (d.find? (fun e => e.1 == k)).map (fun e => e.2)

/-- Python `str(dict)` for a string-valued dict, e.g.
`{'url': 'https://…'}` (only rendered, never parsed back). -/
def pyDictRepr (d : List (Str × Str)) : Str :=
  let quote := chr 39
  chr 123 ::
    (((d.map (fun e => quote :: e.1 ++ quote :: ':' :: ' ' :: quote :: e.2 ++ [quote])).intersperse
      (String.toList ", ")).flatten ++ [chr 125])

/-- `agent/state.py` `ToolCall` — the persisted tool-call record.  (The
ReAct engine's in-memory dicts carry the same fields; `arguments` is
modelled as a string-valued dict, which is what the loader's
`arguments.get("url", "")` consumes.) -/
structure SToolCall where
  tool_name : Str
  arguments : List (Str × Str)
  result : Str
  success : Bool
  duration_seconds : ℚ
  timestamp : Str
  iteration : Int
deriving DecidableEq

/-- `agent/state.py` `ReActIteration`. -/
structure SReActIteration where
  iteration : Int
  thought : Str
  actions : List SToolCall
  observation : Str
  timestamp : Str
deriving DecidableEq

/-! ### `WorkerAgent` (`src/deep_research/agent/worker.py`) -/

/-- `WorkerFullContext` (src/deep_research/agent/state.py lines 30-57).
ISO-format timestamps are external clock readings and are carried as
opaque strings; `duration_seconds` is the difference of two external
clock readings and is carried as supplied. -/
structure WorkerFullContext where
  task_id : Str
  worker_id : Str
  objective : Str
  tools_available : List Str
  expected_output : Str
  react_iterations : List SReActIteration := []
  tool_calls : List SToolCall := []
  final_output : Str := []
  compressed_summary : Str := []
  sources : List Str := []
  status : Str := String.toList "pending"
  error : Option Str := none
  started_at : Option Str := none
  completed_at : Option Str := none
  duration_seconds : ℚ := 0
  cost : ℚ := 0
  tokensPrompt : Nat := 0
  tokensCompletion : Nat := 0
  tokensTotal : Nat := 0
  model : Str := []
deriving DecidableEq

/-- `WorkerResult` (worker.py lines 13-20). -/
structure WorkerResult where
  objective : Str
  content : Str
  sources : List Str
  metadata : Meta
deriving DecidableEq

/-- `WorkerAgent.execute` (worker.py lines 48-102).  The worker builds a
`running` full context, runs its `ReactAgent` (budget 15 iterations /
50000 tokens), and on success marks the context `completed` with the
report's output/sources/token counts; any exception is caught, the
context is marked `failed` with the error recorded, and a failure-shaped
partial result is returned so other workers can continue.  `now` is the
external `datetime.now().isoformat()` reading; the modelled metadata has
no pricing entry, so the context's `cost` takes the Python
`.get(…, 0.0)` default; `duration_seconds` (difference of clock
readings) is left 0.  The caller passes no `task_metadata`
(orchestrator.py line 346), so `task_id`/`tools`/`expected_output` take
the defaults `"unknown"`/`[]`/`""`.  `workerCfg` is the `ReactAgent`
configuration the worker constructs. -/
def workerCfg (workerId : Str) : AgentConfig :=
  { model := defaultModelName
    max_iterations := workerMaxIterations
    max_tokens := reactDefaultMaxTokens
    worker_id := workerId }

/-- The `running` full context built at the top of `WorkerAgent.execute`
(worker.py lines 53-62). -/
def workerCtx0 (workerId objective now : Str) : WorkerFullContext :=
  { task_id := String.toList "unknown"
    worker_id := workerId
    objective := objective
    tools_available := []
    expected_output := []
    status := String.toList "running"
    started_at := some now
    model := defaultModelName }

/-- `WorkerAgent.execute` proper. -/
def workerAgentExecute (env : ReactEnv) (workerId objective : Str) (now : Str) :
    WorkerResult × WorkerFullContext :=
  match reactResearch env (workerCfg workerId) initialAgentState objective with
  | .ok (report, _) =>
    ({ objective := objective
       content := report.content
       sources := report.sources
       metadata := report.metadata },
     { workerCtx0 workerId objective now with
       final_output := report.content
       sources := report.sources
       status := String.toList "completed"
       completed_at := some now
       tokensPrompt := report.metadata.prompt_tokens
       tokensCompletion := report.metadata.completion_tokens
       tokensTotal := report.metadata.tokens_used })
  | .error e =>
    ({ objective := objective
       content := String.toList "Research failed due to error: " ++ e
       sources := []
       metadata := { error := some e, worker_id := some workerId } },
     { workerCtx0 workerId objective now with
       status := String.toList "failed"
       error := some e
       completed_at := some now })

/-! ### `LeadResearcher` (`src/deep_research/agent/orchestrator.py`) -/

/-- `QueryAnalysis` (orchestrator.py lines 22-28). -/
structure QueryAnalysis where
  complexity : ℚ
  specificity : ℚ
  domains : List Str
  multi_step : Bool
deriving DecidableEq

/-- One entry of the reducer-collected `worker_results`
(the dicts returned by `_worker_execution`). -/
structure WorkerEntry where
  task_id : Str
  summary : Str
  sources : List Str
  metadata : Meta
deriving DecidableEq

/-- The external fate of one spawned worker coroutine: it completes
within the 30-minute `asyncio.wait_for` window (`runs`, with the clock
reading its `WorkerAgent` sees), the window expires (`timeout`,
`TimeoutError`), or an exception escapes `WorkerAgent`
construction/execution (`raises`). -/
inductive SchedOutcome
  | runs (now : Str)
  | timeout
  | raises (e : Str)

/-- The orchestrator's external collaborators: the worker-level
environment, the scheduler fate of each sub-task, the content of the
analysis / plan (per attempt) / synthesis / compression completions, and
the external decoders (`QueryAnalysis.model_validate_json`,
`json.loads` + `SubTask.model_validate`). -/
structure OrchEnv where
  react : ReactEnv
  schedule : SubTask → SchedOutcome
  analyzeLLM : Str → Except Str Str
  decodeAnalysis : Str → Except Str QueryAnalysis
  planLLM : Str → Nat → Nat → Except Str Str
  decodeTasks : Str → Except Str (List SubTask)
  synthLLM : Str → Str → Str
  compressLLM : Str → Str

/-- `LeadResearcher._analyze_query` + `_parse_query_analysis`
(orchestrator.py lines 105-149, 588-596): one completion, fail loudly on
an empty response, strip markdown, validate; no retry.  Only the
complexity score flows into the graph state. -/
def analyzeStep (env : OrchEnv) (q : Str) : Except Str ℚ :=
  match env.analyzeLLM q with
  | .error e => .error e
  | .ok content =>
    if (pyStrip content).isEmpty then
      .error (String.toList "LLM returned empty response during analysis.")
    else
      match env.decodeAnalysis (strip_markdown_json content) with
      | .error e => .error (String.toList "Invalid query analysis JSON: " ++ e)
      | .ok qa => .ok qa.complexity

/-- One attempt of the plan-creation loop (orchestrator.py lines
197-224): completion, empty-response check, then `_parse_sub_tasks`
(markdown stripping plus external JSON decode/validation). -/
def planAttempt (env : OrchEnv) (q : Str) (n attempt : Nat) :
    Except Str (List SubTask) :=
  match env.planLLM q n attempt with
  | .error e => .error e
  | .ok content =>
    if (pyStrip content).isEmpty then
      .error (String.toList "LLM returned empty response.")
    else
      parse_sub_tasks env.decodeTasks content

/-- `LeadResearcher._create_plan` (orchestrator.py lines 151-311): derive
the worker count from complexity, then retry the whole plan-creation
call up to 3 times; when all retries fail, surface one descriptive
error (the per-category logging and message tailoring is collapsed into
the final message). -/
def planStep (env : OrchEnv) (q : Str) (complexity : ℚ) : Except Str (List SubTask) :=
  let n := numWorkersFor complexity
  match planAttempt env q n 0 with
  | .ok t => .ok t
  | .error _ =>
    match planAttempt env q n 1 with
    | .ok t => .ok t
    | .error _ =>
      match planAttempt env q n 2 with
      | .ok t => .ok t
      | .error e =>
        .error (String.toList "Failed to create plan after 3 attempts. Last error: " ++ e)

/-- `LeadResearcher._worker_execution` (orchestrator.py lines 320-392):
run one worker under a 30-minute timeout; a completed worker's raw
output is compressed and its entry carries its sources and metadata; a
timeout or an escaped exception is caught at this boundary and
substituted by a failure-shaped entry (empty sources, metadata carrying
the error and the worker id) so the run continues. -/
def workerExecutionStep (env : OrchEnv) (task : SubTask) : WorkerEntry :=
  match env.schedule task with
  | .runs now =>
    let res := (workerAgentExecute env.react task.id task.objective now).1
    { task_id := task.id
      summary := env.compressLLM res.content
      sources := res.sources
      metadata := res.metadata }
  | .timeout =>
    { task_id := task.id
      summary := String.toList "Worker timed out after 30 minutes. Task: " ++ task.objective
      sources := []
      metadata := { error := some (String.toList "timeout"), worker_id := some task.id } }
  | .raises e =>
    { task_id := task.id
      summary := String.toList "Worker failed: " ++ e ++ String.toList ". Task: " ++
        task.objective
      sources := []
      metadata := { error := some e, worker_id := some task.id } }

/-- Python `list(set(xs))` on strings: deduplicated, in CPython's
unspecified set-iteration order, modelled as first-occurrence order.  No
claim depends on which order is chosen — except that it is *some* fixed
order with no sorting applied, which is exactly what the code does. -/
def pySetList (l : List Str) : List Str :=
  l.foldl (fun acc u => if u ∈ acc then acc else acc ++ [u]) []

/-- The synthesis node's output fields (report text, `sources`,
`metadata.workers`, `metadata.model`). -/
structure SynthOut where
  report : Str
  sources : List Str
  workers_count : Nat
  model : Str
deriving DecidableEq

/-- `LeadResearcher._synthesize_results` (orchestrator.py lines 394-436):
one completion over the query and the joined summaries;
`sources = list(set(all_sources))` where `all_sources` is the
concatenation of every worker entry's sources — deduplicated, **not**
sorted; metadata records the number of workers and the model. -/
def synthesizeStep (env : OrchEnv) (model q : Str) (results : List WorkerEntry) :
    SynthOut :=
  let summaries := results.map (fun r => r.summary)
  let all_sources := (results.map (fun r => r.sources)).flatten
  { report := env.synthLLM q (interNl summaries)
    sources := pySetList all_sources
    workers_count := summaries.length
    model := model }

/-- The final payload of `LeadResearcher.research` (the graph state after
`synthesize`).  `_attach_cost_metadata` enriches `metadata` with token
and dollar aggregates only; it touches neither `report`, `sources`,
`worker_results` nor the fields below, and no claim mentions the cost
numbers, so it is not modelled. -/
structure OrchResult where
  report : Str
  sources : List Str
  workers_count : Nat
  model : Str
  worker_results : List WorkerEntry
deriving DecidableEq

/-- `LeadResearcher.research` (orchestrator.py lines 65-79) through the
graph `analyze → plan → fan-out workers → synthesize`.  LangGraph's
reducer collects worker results in completion order; the model uses
sub-task order (no claim depends on the collection order). -/
def leadResearch (env : OrchEnv) (model q : Str) : Except Str OrchResult :=
  match analyzeStep env q with
  | .error e => .error e
  | .ok complexity =>
    match planStep env q complexity with
    | .error e => .error e
    | .ok tasks =>
      let results := tasks.map (workerExecutionStep env)
      let syn := synthesizeStep env model q results
      .ok { report := syn.report
            sources := syn.sources
            workers_count := syn.workers_count
            model := syn.model
            worker_results := results }

/-! ### `ResearchSession` and the vault -/

/-- `agent/state.py` `ResearchSession`.  `version` is a positive Python
int, modelled as `Nat`; insights are LLM-extracted dicts (never reloaded;
kept as string dicts). -/
structure ResearchSession where
  session_id : Str
  version : Nat
  parent_session_id : Option Str
  query : Str
  complexity_score : ℚ
  sub_tasks : List SubTask := []
  workers : List WorkerFullContext := []
  report : Str := []
  all_sources : List Str := []
  insights : List (List (Str × Str)) := []
  status : Str := String.toList "pending"
  created_at : Str := []
  updated_at : Str := []
  model : Str := []
  cost : ℚ := 0
  tokens : List (Str × Nat) := []
  obsidian_vault_path : Str := String.toList "outputs/obsidian"
  session_file_path : Str := []
deriving DecidableEq

/-- The structured frontmatter of `session.md`
(`ObsidianWriter._write_session_moc`, writer.py lines 92-106; the `type`
key is the constant `"research_session"` and is omitted). -/
structure MocFm where
  session_id : Str
  version : Nat
  query : Str
  status : Str
  created_at : Str
  updated_at : Str
  model : Str
  complexity : ℚ
  num_workers : Nat
  total_cost : ℚ
  parent_session : Option Str
  tags : List Str
deriving DecidableEq

/-- The structured frontmatter of a worker note
(`ObsidianWriter._write_workers`, writer.py lines 157-171; constant
`type`/`session` link keys omitted, `session_id` kept). -/
structure WorkerFm where
  session_id : Str
  task_id : Str
  worker_id : Str
  objective : Str
  status : Str
  created_at : Option Str
  completed_at : Option Str
  duration_seconds : ℚ
  tool_calls : Nat
  cost : ℚ
  tags : List Str
deriving DecidableEq

/-- A durable file of the vault.  The session MOC's markdown body is
never read back (the loader uses only its frontmatter), so only the
frontmatter is stored for it; a report note's frontmatter is never read
back, so only its body is stored. -/
inductive VFile
  | moc (fm : MocFm)
  | workerNote (fm : WorkerFm) (body : Str)
  | reportNote (body : Str)
deriving DecidableEq

/-- The vault: path segments (relative to the vault root) to file.
Writing replaces the file at a path; other files are untouched (the
writer never clears directories). -/
abbrev Vault := List (List Str × VFile)

/-- Write (create or overwrite) one file.  The vault is an unordered
map (a filesystem); directory listings are sorted by the loader before
use, so the representation order carries no information and
replace-by-filtering is a faithful overwrite. -/
def vaultSet (v : Vault) (k : List Str) (f : VFile) : Vault :=
  (k, f) :: v.filter (fun e => !(e.1 == k))

/-- Read one file. -/
def vaultGet (v : Vault) (k : List Str) : Option VFile :=
  (v.find? (fun e => e.1 == k)).map (fun e => e.2)

/-! ### `ObsidianWriter` rendering -/

/-- The entry list whose `"\n".join` is `react_section` in
`worker_note_template` (templates.py lines 93-114). -/
def renderReactEntries (its : List SReActIteration) : List Str :=
  its.flatMap (fun it =>
    [String.toList "### Iteration " ++ intStr it.iteration ++ ['\n'],
     String.toList "**Thought**: " ++ it.thought ++ ['\n']] ++
    (if it.actions.isEmpty then [] else
      String.toList "**Actions**:\n" ::
      (it.actions.flatMap (fun a =>
        [String.toList "- " ++ backtick :: a.tool_name ++ '(' :: pyDictRepr a.arguments ++
           [')', backtick],
         (if a.success then
            String.toList "  - ✓ Success (" ++ pyFormat2 a.duration_seconds ++
              String.toList "s)"
          else
            String.toList "  - ✗ Failed (" ++ pyFormat2 a.duration_seconds ++
              String.toList "s)"),
         []]))) ++
    (if it.observation.isEmpty then [] else
      [String.toList "**Observation**:\n```\n" ++ it.observation.take 500 ++
        (if 500 < it.observation.length then String.toList "..." else []) ++
        String.toList "\n```\n"]) ++
    [[]])

/-- The markdown body of a worker note, line by line
(`worker_note_template`, templates.py lines 116-144; interpolated parts
are split into their lines so that the whole body is `joinNl` of this
list, which is exactly the f-string's character sequence). -/
def renderWorkerBodyLines (w : WorkerFullContext) : List Str :=
  [String.toList "# Worker: " ++ w.objective,
   [],
   String.toList "**Session**: [[../session|Session]]",
   String.toList "**Objective**: " ++ w.objective,
   [],
   String.toList "## Research Process (ReAct Loop)",
   []] ++
  splitNl (interNl (renderReactEntries w.react_iterations)) ++
  [[],
   String.toList "## Final Output",
   []] ++
  splitNl w.final_output ++
  [[],
   String.toList "## Compressed Summary",
   [],
   String.toList "*This is what gets passed to the synthesis step:*",
   []] ++
  splitNl w.compressed_summary ++
  [[],
   String.toList "## Metadata",
   [],
   String.toList "- **Task ID**: " ++ backtick :: w.task_id ++ [backtick],
   String.toList "- **Worker ID**: " ++ backtick :: w.worker_id ++ [backtick],
   String.toList "- **Status**: " ++ w.status,
   String.toList "- **Duration**: " ++ pyFormat2 w.duration_seconds ++ [ 's'],
   String.toList "- **Tool Calls**: " ++ natStr w.tool_calls.length,
   String.toList "- **Cost**: $" ++ pyFormat4 w.cost,
   String.toList "- **Sources**: " ++ natStr w.sources.length]

/-- A worker note's body text. -/
def renderWorkerBody (w : WorkerFullContext) : Str := joinNl (renderWorkerBodyLines w)

/-- The markdown body of a report note, line by line
(`report_template`, templates.py lines 220-237). -/
def renderReportBodyLines (s : ResearchSession) : List Str :=
  [String.toList "# Research Report: " ++ s.query,
   [],
   String.toList "**Session**: [[" ++ s.session_id ++ String.toList "_v" ++
     natStr s.version ++ String.toList "]]",
   String.toList "**Generated**: " ++ s.created_at,
   [],
   String.toList "---",
   []] ++
  splitNl s.report ++
  [[],
   String.toList "---",
   [],
   String.toList "## Research Metadata",
   [],
   String.toList "- **Workers**: " ++ natStr s.workers.length,
   String.toList "- **Sources**: " ++ natStr s.all_sources.length,
   String.toList "- **Total Cost**: $" ++ pyFormat4 s.cost,
   String.toList "- **Model**: " ++ s.model]

/-- `session.md` frontmatter values. -/
def mocFmOf (s : ResearchSession) : MocFm :=
  { session_id := s.session_id
    version := s.version
    query := s.query
    status := s.status
    created_at := s.created_at
    updated_at := s.updated_at
    model := s.model
    complexity := s.complexity_score
    num_workers := s.workers.length
    total_cost := s.cost
    parent_session := s.parent_session_id
    tags := generateTags s.query }

/-- Worker-note frontmatter values. -/
def workerFmOf (sid : Str) (w : WorkerFullContext) : WorkerFm :=
  { session_id := sid
    task_id := w.task_id
    worker_id := w.worker_id
    objective := w.objective
    status := w.status
    created_at := w.started_at
    completed_at := w.completed_at
    duration_seconds := w.duration_seconds
    tool_calls := w.tool_calls.length
    cost := w.cost
    tags := generateTags w.objective }

/-- `ObsidianWriter.write_session` (writer.py lines 51-77): write every
worker note into `<session_id>/workers/<task_id>_worker.md`, the report
into `<session_id>/reports/report_v<version>.md`, and the session MOC
into `<session_id>/session.md`.  All paths are keyed by `session_id`
alone — there is one `session.md` per session id, whatever the version.
Insight and source notes are also written (never read back; source
filenames depend on MD5) and `extract_insights` (an external LLM call)
fills `session.insights`; neither affects any reloaded field, so they
are not modelled. -/
def writeSession (v : Vault) (s : ResearchSession) : Vault :=
  let v1 := s.workers.foldl (fun acc w =>
    vaultSet acc [s.session_id, String.toList "workers",
        w.task_id ++ String.toList "_worker.md"]
      (.workerNote (workerFmOf s.session_id w) (renderWorkerBody w))) v
  let v2 := vaultSet v1
    [s.session_id, String.toList "reports",
      String.toList "report_v" ++ natStr s.version ++ String.toList ".md"]
    (.reportNote (joinNl (renderReportBodyLines s)))
  vaultSet v2 [s.session_id, String.toList "session.md"] (.moc (mocFmOf s))

/-! ### `SessionLoader` -/

/-- State of the `_split_sections` scan (loader.py lines 205-226). -/
structure SectState where
  current : Option Str
  curLines : List Str
  sections : List (Str × Str)

/-- Save the current section (the `sections[current_section] = …`
assignments). -/
def splitSectionsSave (st : SectState) : List (Str × Str) :=
  match st.current with
  | none => st.sections
  | some name => dictInsert st.sections name (pyStrip (interNl st.curLines))

/-- One line of the `_split_sections` scan. -/
def splitSectionsStep (st : SectState) (line : Str) : SectState :=
  if (String.toList "## ").isPrefixOf line then
    { current := some (pyStrip (line.drop 3)), curLines := [],
      sections := splitSectionsSave st }
  else
    { st with curLines := st.curLines ++ [line] }

/-- `SessionLoader._split_sections`. -/
def splitSections (body : Str) : List (Str × Str) :=
  splitSectionsSave
    ((splitNl body).foldl splitSectionsStep
      { current := none, curLines := [], sections := [] })

/-- Python `int(s)`: strip, optional sign, decimal digits. -/
def pyInt (s : Str) : Except Str Int :=
  let t := pyStrip s
  let digitsVal : Str → Except Str Nat := fun ds =>
    if ds.isEmpty || ds.any (fun c => !(('0' ≤ c) && (c ≤ '9'))) then
      .error (String.toList "invalid literal for int()")
    else
      .ok (ds.foldl (fun acc c => acc * 10 + (c.toNat - 48)) 0)
  match t with
  | '-' :: ds => (digitsVal ds).map (fun n => -(n : Int))
  | '+' :: ds => (digitsVal ds).map (fun n => (n : Int))
  | ds => (digitsVal ds).map (fun n => (n : Int))

/-- The tag prefixes recognised by `_parse_react_trace`. -/
def thoughtTag : Str := String.toList "**Thought**:"

def actionsTag : Str := String.toList "**Actions**:"

def observationTag : Str := String.toList "**Observation**:"

/-- The section marker `_parse_react_trace` splits the body on. -/
def iterationMarker : Str := String.toList "### Iteration "

/-- The `current_section` marker of `_parse_react_trace`. -/
inductive TraceSec
  | thought
  | actions
  | observation
deriving DecidableEq

/-- State of the per-iteration line scan of `_parse_react_trace`. -/
structure TraceState where
  current : Option TraceSec
  thought : Str
  actions : List SToolCall
  curText : List Str

/-- The action-line parse (loader.py lines 172-185):
`line.strip("- `").split("(", 1)[0]` becomes the tool name; arguments
are **not** parsed (`arguments={}`), `success` is always `True`. -/
def loadToolLine (line : Str) (iterNum : Int) : SToolCall :=
  let t := pyStripSet (String.toList "- " ++ [backtick]) line
  { tool_name :=
      match splitOnceSeq ['('] t with
      | some p => p.1
      | none => t
    arguments := []
    result := []
    success := true
    duration_seconds := 0
    timestamp := []
    iteration := iterNum }

/-- One line of the `_parse_react_trace` section scan. -/
def traceStep (iterNum : Int) (st : TraceState) (line : Str) : TraceState :=
  if thoughtTag.isPrefixOf line then
    { st with current := some .thought
              thought := pyStrip (pyRemoveAll thoughtTag line) }
  else if actionsTag.isPrefixOf line then
    { st with current := some .actions }
  else if observationTag.isPrefixOf line then
    { st with current := some .observation }
  else if st.current == some .actions &&
      (String.toList "- " ++ [backtick]).isPrefixOf line then
    { st with actions := st.actions ++ [loadToolLine line iterNum] }
  else if st.current == some .observation then
    { st with curText := st.curText ++ [line] }
  else st

/-- Observation post-processing (loader.py lines 189-193): join, strip,
and when it opens with a code fence take what stands between the first
two fences (`split("```", 2)[1]`). -/
def finishObservation (st : TraceState) : Str :=
  match st.current with
  | some .observation =>
    let obs := pyStrip (interNl st.curText)
    if [backtick, backtick, backtick].isPrefixOf obs then
      match splitOnceSeq [backtick, backtick, backtick] obs with
      | some p =>
        (match splitOnceSeq [backtick, backtick, backtick] p.2 with
         | some p2 => pyStrip p2.1
         | none => pyStrip p.2)
      | none => obs
    else obs
  | _ => []

/-- Parse one `### Iteration `-delimited section. -/
def parseTraceSection (sec : Str) : Except Str SReActIteration :=
  match splitNl sec with
  | [] => .error (String.toList "empty section")
  | l0 :: rest =>
    match pyInt l0 with
    | .error e => .error e
    | .ok iterNum =>
      let st := rest.foldl (traceStep iterNum)
        { current := none, thought := [], actions := [], curText := [] }
      .ok { iteration := iterNum
            thought := st.thought
            actions := st.actions
            observation := finishObservation st
            timestamp := [] }

/-- `SessionLoader._parse_react_trace`: split the body on
`### Iteration ` and parse every section after the first; a malformed
iteration number raises (`int(...)`). -/
def loaderParseTrace (body : Str) : Except Str (List SReActIteration) :=
  ((pySplitSeq iterationMarker body).drop 1).mapM parseTraceSection

/-- `SessionLoader._load_worker_from_file` (loader.py lines 81-125),
given the parsed frontmatter and the (already frontmatter-stripped)
body.  Sources are rebuilt from the parsed trace:
`tc.arguments.get("url", "")` for successful fetch tool calls — and the
trace parser stores `arguments={}`. -/
def loadWorkerFromFile (fm : WorkerFm) (body : Str) : Except Str WorkerFullContext :=
  let bodyS := pyStrip body
  match loaderParseTrace bodyS with
  | .error e => .error e
  | .ok react =>
    let tool_calls := (react.map (fun it => it.actions)).flatten
    let sections := splitSections bodyS
    .ok { task_id := fm.task_id
          worker_id := fm.worker_id
          objective := fm.objective
          tools_available := []
          expected_output := []
          react_iterations := react
          tool_calls := tool_calls
          final_output := pyStrip ((dictGet sections (String.toList "Final Output")).getD [])
          compressed_summary :=
            pyStrip ((dictGet sections (String.toList "Compressed Summary")).getD [])
          sources := tool_calls.filterMap (fun tc =>
            if tc.tool_name == String.toList "fetch" && tc.success then
              some ((dictGet tc.arguments (String.toList "url")).getD [])
            else none)
          status := fm.status
          started_at := fm.created_at
          completed_at := fm.completed_at
          duration_seconds := fm.duration_seconds
          cost := fm.cost
          model := [] }

/-- The filename filter of `_load_workers`' `glob("task_*_worker.md")`. -/
def globWorkerMatch (name : Str) : Bool :=
  (String.toList "task_").isPrefixOf name &&
    (String.toList "_worker.md").isSuffixOf name &&
    decide (15 ≤ name.length)

/-- The worker files of a session directory, as (filename, file) pairs. -/
def collectWorkerFiles (v : Vault) (sid : Str) : List (Str × WorkerFm × Str) :=
  v.filterMap (fun e =>
    match e with
    | ([a, b, c], .workerNote fm body) =>
      if a == sid && b == String.toList "workers" && globWorkerMatch c then
        some (c, fm, body)
      else none
    | _ => none)

/-- `SessionLoader._load_workers`: the matching files in sorted filename
order, each parsed. -/
def loadWorkers (v : Vault) (sid : Str) : Except Str (List WorkerFullContext) :=
  (List.insertionSort (fun a b => strLeB a.1 b.1 = true)
    (collectWorkerFiles v sid)).mapM (fun e => loadWorkerFromFile e.2.1 e.2.2)

/-- `SessionLoader._load_report` (loader.py lines 234-254): the body
lines before `## Research Metadata`, joined and stripped; an absent file
yields the empty report. -/
def loadReport (v : Vault) (sid : Str) (version : Nat) : Str :=
  match vaultGet v [sid, String.toList "reports",
      String.toList "report_v" ++ natStr version ++ String.toList ".md"] with
  | some (.reportNote body) =>
    let bodyS := pyStrip body
    pyStrip (interNl ((splitNl bodyS).takeWhile
      (fun l => !(pyStrip l == String.toList "## Research Metadata"))))
  | _ => []

/-- `SessionLoader._aggregate_sources`. -/
def aggregateSources (workers : List WorkerFullContext) : List Str :=
  pySortedStrs (pySetList ((workers.map (fun w => w.sources)).flatten))

/-- `SessionLoader.load_session` (loader.py lines 19-65): read the
session MOC frontmatter (FileNotFoundError if absent; the version
argument is **ignored** for the MOC, "new structure"), load the workers,
the insights (always `[]` in the source), the report for the *requested*
version, and aggregate sources. -/
def loadSession (v : Vault) (sid : Str) (version : Nat) : Except Str ResearchSession :=
  match vaultGet v [sid, String.toList "session.md"] with
  | some (.moc fm) =>
    match loadWorkers v sid with
    | .error e => .error e
    | .ok workers =>
      .ok { session_id := fm.session_id
            version := fm.version
            parent_session_id := fm.parent_session
            query := fm.query
            complexity_score := fm.complexity
            workers := workers
            insights := []
            report := loadReport v sid version
            all_sources := aggregateSources workers
            status := fm.status
            created_at := fm.created_at
            updated_at := fm.updated_at
            model := fm.model
            cost := fm.total_cost }
  | _ => .error (String.toList "Session not found")

/-! ### `cmd_continue` / `cmd_expand` session forking
(`src/deep_research/repl/commands.py`). -/

/-- The new `ResearchSession` built by `cmd_continue`
(commands.py lines 179-185): same id, incremented version, parent set to
`"<session_id>_v<version>"`, original query and complexity, all other
fields at their dataclass defaults. -/
def cmd_continue_new_session (s : ResearchSession) : ResearchSession :=
  { session_id := s.session_id
    version := s.version + 1
    parent_session_id := some (s.session_id ++ String.toList "_v" ++ natStr s.version)
    query := s.query
    complexity_score := s.complexity_score }

/-- The new `ResearchSession` built by `cmd_expand`
(commands.py lines 257-263): the identical construction. -/
def cmd_expand_new_session (s : ResearchSession) : ResearchSession :=
  { session_id := s.session_id
    version := s.version + 1
    parent_session_id := some (s.session_id ++ String.toList "_v" ++ natStr s.version)
    query := s.query
    complexity_score := s.complexity_score }

end DeepResearch

/-! ## Supporting lemmas and claim theorems -/

namespace DeepResearch

/-- `dropWhile` leaves a list alone when its head fails the predicate. -/
theorem dropWhile_eq_self_of_head (p : Char → Bool) (l : Str)
    (h : ∀ c, l.head? = some c → p c = false) : l.dropWhile p = l := by
  cases l with
  | nil => rfl
  | cons a t => rw [List.dropWhile_cons, h a rfl]; simp

/-- Python `strip()` is the identity on text whose first and last
characters are not whitespace. -/
theorem pyStrip_eq_self (l : Str)
    (h1 : ∀ c, l.head? = some c → isPyWs c = false)
    (h2 : ∀ c, l.getLast? = some c → isPyWs c = false) : pyStrip l = l := by
  unfold pyStrip pyStripLeft pyStripRight
  rw [dropWhile_eq_self_of_head _ _ h1]
  rw [dropWhile_eq_self_of_head _ _ (fun c hc => h2 c (by rwa [List.head?_reverse] at hc))]
  exact List.reverse_reverse l

/-- Python `rstrip` distributes over an append whose left part ends in a
non-whitespace character. -/
theorem pyStripRight_append (l r : Str)
    (h : ∀ c, l.getLast? = some c → isPyWs c = false) :
    pyStripRight (l ++ r) = l ++ pyStripRight r := by
  unfold pyStripRight
  rw [List.reverse_append, List.dropWhile_append]
  by_cases he : (r.reverse.dropWhile isPyWs).isEmpty = true
  · rw [if_pos he]
    rw [dropWhile_eq_self_of_head _ _ (fun c hc => h c (by rwa [List.head?_reverse] at hc))]
    rw [List.reverse_reverse]
    have : (r.reverse.dropWhile isPyWs).reverse = [] := by
      rw [List.isEmpty_iff] at he; rw [he]; rfl
    rw [this, List.append_nil]
  · rw [if_neg he, List.reverse_append, List.reverse_reverse]

/-- A successful `jsonSpan` scan ends exactly at a closing bracket. -/
theorem jsonSpan_closer :
    ∀ (cs : Str) (d : Int) (s e : Bool) (sp : Str),
      jsonSpan cs d s e = some sp → ∃ sp0 c, sp = sp0 ++ [c] ∧ isCloseBr c = true := by
  intro cs
  induction cs with
  | nil => intro d s e sp h; simp [jsonSpan] at h
  | cons c rest ih =>
    intro d s e sp h
    simp only [jsonSpan] at h
    by_cases he : e = true
    · rw [if_pos he] at h
      obtain ⟨sp0, h0, rfl⟩ := Option.map_eq_some'.mp h
      obtain ⟨sp1, cl, rfl, hcl⟩ := ih _ _ _ _ h0
      exact ⟨c :: sp1, cl, rfl, hcl⟩
    · rw [if_neg he] at h
      by_cases hb : (c == '\\') = true
      · rw [if_pos hb] at h
        obtain ⟨sp0, h0, rfl⟩ := Option.map_eq_some'.mp h
        obtain ⟨sp1, cl, rfl, hcl⟩ := ih _ _ _ _ h0
        exact ⟨c :: sp1, cl, rfl, hcl⟩
      · rw [if_neg hb] at h
        by_cases hq : (c == '"') = true
        · rw [if_pos hq] at h
          obtain ⟨sp0, h0, rfl⟩ := Option.map_eq_some'.mp h
          obtain ⟨sp1, cl, rfl, hcl⟩ := ih _ _ _ _ h0
          exact ⟨c :: sp1, cl, rfl, hcl⟩
        · rw [if_neg hq] at h
          by_cases ho : (!s && isOpenBr c) = true
          · rw [if_pos ho] at h
            obtain ⟨sp0, h0, rfl⟩ := Option.map_eq_some'.mp h
            obtain ⟨sp1, cl, rfl, hcl⟩ := ih _ _ _ _ h0
            exact ⟨c :: sp1, cl, rfl, hcl⟩
          · rw [if_neg ho] at h
            by_cases hc : (!s && isCloseBr c) = true
            · rw [if_pos hc] at h
              by_cases hd : (d - 1 == 0) = true
              · rw [if_pos hd] at h
                refine ⟨[], c, ?_, (Bool.and_eq_true_iff.mp hc).2⟩
                simpa using (Option.some.inj h).symm
              · rw [if_neg hd] at h
                obtain ⟨sp0, h0, rfl⟩ := Option.map_eq_some'.mp h
                obtain ⟨sp1, cl, rfl, hcl⟩ := ih _ _ _ _ h0
                exact ⟨c :: sp1, cl, rfl, hcl⟩
            · rw [if_neg hc] at h
              obtain ⟨sp0, h0, rfl⟩ := Option.map_eq_some'.mp h
              obtain ⟨sp1, cl, rfl, hcl⟩ := ih _ _ _ _ h0
              exact ⟨c :: sp1, cl, rfl, hcl⟩

/-- Opening brackets are not whitespace. -/
theorem isOpenBr_not_ws {c : Char} (h : isOpenBr c = true) : isPyWs c = false := by
  rcases Bool.or_eq_true_iff.mp h with h1 | h1
  · rw [eq_of_beq h1]; decide
  · rw [eq_of_beq h1]; decide

/-- Closing brackets are not whitespace. -/
theorem isCloseBr_not_ws {c : Char} (h : isCloseBr c = true) : isPyWs c = false := by
  rcases Bool.or_eq_true_iff.mp h with h1 | h1
  · rw [eq_of_beq h1]; decide
  · rw [eq_of_beq h1]; decide

/-- An opening bracket is not a backtick, so bracket-headed text never
looks like a markdown fence. -/
theorem not_fence_of_open {c0 : Char} (h : isOpenBr c0 = true) (t : Str) :
    [backtick, backtick, backtick].isPrefixOf (c0 :: t) = false := by
  have hne : (backtick == c0) = false := by
    rcases Bool.or_eq_true_iff.mp h with h1 | h1
    · rw [eq_of_beq h1]; decide
    · rw [eq_of_beq h1]; decide
  simp [List.isPrefixOf, hne]

/-- `stripCodeFences` is the identity on non-fence text. -/
theorem stripCodeFences_eq_self (l : Str)
    (h : [backtick, backtick, backtick].isPrefixOf l = false) :
    stripCodeFences l = l := by
  unfold stripCodeFences
  rw [h]
  simp

end DeepResearch

namespace DeepResearch

/-- `dropWhile` steps over an element satisfying the predicate. -/
theorem dropWhile_cons_true {p : Char → Bool} {a : Char} (h : p a = true) (l : Str) :
    (a :: l).dropWhile p = l.dropWhile p := by
  rw [List.dropWhile_cons, h]; simp

/-- `dropWhile` stops at an element failing the predicate. -/
theorem dropWhile_cons_false {p : Char → Bool} {a : Char} (h : p a = false) (l : Str) :
    (a :: l).dropWhile p = a :: l := by
  rw [List.dropWhile_cons, h]; simp

/-- A balanced span found by `jsonSpan` is unaffected by appending text
after it. -/
theorem jsonSpan_append (ext : Str) :
    ∀ (cs : Str) (d : Int) (s e : Bool) (sp : Str),
      jsonSpan cs d s e = some sp → jsonSpan (cs ++ ext) d s e = some sp := by
  intro cs
  induction cs with
  | nil => intro d s e sp h; simp [jsonSpan] at h
  | cons c rest ih =>
    intro d s e sp h
    simp only [List.cons_append]
    simp only [jsonSpan] at h ⊢
    by_cases he : e = true
    · rw [if_pos he] at h ⊢
      obtain ⟨sp0, h0, rfl⟩ := Option.map_eq_some'.mp h
      rw [ih _ _ _ _ h0]; rfl
    · rw [if_neg he] at h ⊢
      by_cases hb : (c == '\\') = true
      · rw [if_pos hb] at h ⊢
        obtain ⟨sp0, h0, rfl⟩ := Option.map_eq_some'.mp h
        rw [ih _ _ _ _ h0]; rfl
      · rw [if_neg hb] at h ⊢
        by_cases hq : (c == '"') = true
        · rw [if_pos hq] at h ⊢
          obtain ⟨sp0, h0, rfl⟩ := Option.map_eq_some'.mp h
          rw [ih _ _ _ _ h0]; rfl
        · rw [if_neg hq] at h ⊢
          by_cases ho : (!s && isOpenBr c) = true
          · rw [if_pos ho] at h ⊢
            obtain ⟨sp0, h0, rfl⟩ := Option.map_eq_some'.mp h
            rw [ih _ _ _ _ h0]; rfl
          · rw [if_neg ho] at h ⊢
            by_cases hc : (!s && isCloseBr c) = true
            · rw [if_pos hc] at h ⊢
              by_cases hd : (d - 1 == 0) = true
              · rw [if_pos hd] at h ⊢; exact h
              · rw [if_neg hd] at h ⊢
                obtain ⟨sp0, h0, rfl⟩ := Option.map_eq_some'.mp h
                rw [ih _ _ _ _ h0]; rfl
            · rw [if_neg hc] at h ⊢
              obtain ⟨sp0, h0, rfl⟩ := Option.map_eq_some'.mp h
              rw [ih _ _ _ _ h0]; rfl

/-- The span stage returns a balanced bracket-headed text unchanged. -/
theorem stripSpanStage_of_balanced (c0 : Char) (t : Str)
    (hopen : isOpenBr c0 = true) (hbal : balancedJson (c0 :: t)) :
    stripSpanStage (c0 :: t) = c0 :: t := by
  unfold stripSpanStage
  rw [dropWhile_cons_false (by rw [hopen]; rfl)]
  simp only [List.isEmpty_cons, Bool.false_eq_true, if_false]
  rw [hbal]

/-- The span stage discards anything after a balanced bracket-headed
span. -/
theorem stripSpanStage_append (c0 : Char) (t noise : Str)
    (hopen : isOpenBr c0 = true) (hbal : balancedJson (c0 :: t)) :
    stripSpanStage ((c0 :: t) ++ noise) = c0 :: t := by
  unfold stripSpanStage
  rw [List.cons_append, dropWhile_cons_false (by rw [hopen]; rfl), ← List.cons_append]
  simp only [List.cons_append, List.isEmpty_cons, Bool.false_eq_true, if_false]
  rw [← List.cons_append, jsonSpan_append _ _ _ _ _ _ hbal]

/-- A balanced bracket-headed text is returned unchanged by
`_strip_markdown_json`. -/
theorem strip_markdown_json_of_balanced (c0 : Char) (t : Str)
    (hopen : isOpenBr c0 = true) (hbal : balancedJson (c0 :: t)) :
    strip_markdown_json (c0 :: t) = c0 :: t := by
  obtain ⟨sp0, cl, hshape, hcl⟩ := jsonSpan_closer _ _ _ _ _ hbal
  have hlast : (c0 :: t).getLast? = some cl := by
    rw [hshape]; exact List.getLast?_concat _
  have hstrip : pyStrip (c0 :: t) = c0 :: t := by
    refine pyStrip_eq_self _ (fun c hc => ?_) (fun c hc => ?_)
    · simp only [List.head?_cons, Option.some.injEq] at hc
      rw [← hc]; exact isOpenBr_not_ws hopen
    · rw [hlast] at hc
      rw [← Option.some.inj hc]; exact isCloseBr_not_ws hcl
  unfold strip_markdown_json
  rw [hstrip, stripCodeFences_eq_self _ (not_fence_of_open hopen t)]
  exact stripSpanStage_of_balanced c0 t hopen hbal

/-- Trailing commentary after a balanced bracket-headed text is discarded
by `_strip_markdown_json`. -/
theorem strip_markdown_json_append (c0 : Char) (t noise : Str)
    (hopen : isOpenBr c0 = true) (hbal : balancedJson (c0 :: t)) :
    strip_markdown_json ((c0 :: t) ++ noise) = c0 :: t := by
  obtain ⟨sp0, cl, hshape, hcl⟩ := jsonSpan_closer _ _ _ _ _ hbal
  have hlast : (c0 :: t).getLast? = some cl := by
    rw [hshape]; exact List.getLast?_concat _
  have hleft : pyStripLeft ((c0 :: t) ++ noise) = (c0 :: t) ++ noise := by
    unfold pyStripLeft
    refine dropWhile_eq_self_of_head _ _ (fun c hc => ?_)
    simp only [List.cons_append, List.head?_cons, Option.some.injEq] at hc
    rw [← hc]; exact isOpenBr_not_ws hopen
  have hstrip : pyStrip ((c0 :: t) ++ noise) = (c0 :: t) ++ pyStripRight noise := by
    unfold pyStrip
    rw [hleft]
    exact pyStripRight_append _ _ (fun c hc => by
      rw [hlast] at hc; rw [← Option.some.inj hc]; exact isCloseBr_not_ws hcl)
  unfold strip_markdown_json
  rw [hstrip]
  rw [List.cons_append, stripCodeFences_eq_self _ (not_fence_of_open hopen _),
    ← List.cons_append]
  exact stripSpanStage_append c0 t _ hopen hbal

/-- Markdown code fences around a balanced bracket-headed text are removed
by `_strip_markdown_json`. -/
theorem strip_markdown_json_mdFence (c0 : Char) (t : Str)
    (hopen : isOpenBr c0 = true) (hbal : balancedJson (c0 :: t)) :
    strip_markdown_json (mdFence (c0 :: t)) = c0 :: t := by
  obtain ⟨sp0, cl, hshape, hcl⟩ := jsonSpan_closer _ _ _ _ _ hbal
  have hlast : (c0 :: t).getLast? = some cl := by
    rw [hshape]; exact List.getLast?_concat _
  have hstrip0 : pyStrip (c0 :: t) = c0 :: t := by
    refine pyStrip_eq_self _ (fun c hc => ?_) (fun c hc => ?_)
    · simp only [List.head?_cons, Option.some.injEq] at hc
      rw [← hc]; exact isOpenBr_not_ws hopen
    · rw [hlast] at hc
      rw [← Option.some.inj hc]; exact isCloseBr_not_ws hcl
  have hstripfence : pyStrip (mdFence (c0 :: t)) = mdFence (c0 :: t) := by
    refine pyStrip_eq_self _ (fun c hc => ?_) (fun c hc => ?_)
    · simp only [mdFence, List.cons_append, List.head?_cons, Option.some.injEq] at hc
      rw [← hc]; decide
    · have hrepr : mdFence (c0 :: t) =
          ([backtick, backtick, backtick, 'j', 's', 'o', 'n', '\n'] ++ (c0 :: t) ++
            ['\n', backtick, backtick]) ++ [backtick] := by
        simp [mdFence]
      rw [hrepr, List.getLast?_concat] at hc
      rw [← Option.some.inj hc]; decide
  have hfences : stripCodeFences (mdFence (c0 :: t)) = c0 :: t := by
    unfold stripCodeFences
    have hpre : [backtick, backtick, backtick].isPrefixOf (mdFence (c0 :: t)) = true := by
      rw [List.isPrefixOf_iff_prefix]
      exact ⟨['j', 's', 'o', 'n', '\n'] ++ ((c0 :: t) ++ ['\n', backtick, backtick, backtick]),
        by simp [mdFence]⟩
    rw [hpre]
    have hcont : (mdFence (c0 :: t)).contains '\n' = true := by
      have : '\n' ∈ mdFence (c0 :: t) := by simp [mdFence]
      exact List.elem_iff.mpr this
    simp only [hcont, if_true]
    have hdrop : ((mdFence (c0 :: t)).dropWhile (fun c => !(c == '\n'))).drop 1 =
        (c0 :: t) ++ ['\n', backtick, backtick, backtick] := by
      have hm : mdFence (c0 :: t) = backtick :: backtick :: backtick :: 'j' :: 's' :: 'o' ::
          'n' :: '\n' :: ((c0 :: t) ++ ['\n', backtick, backtick, backtick]) := by
        simp [mdFence]
      rw [hm]
      rw [dropWhile_cons_true (by decide), dropWhile_cons_true (by decide),
        dropWhile_cons_true (by decide), dropWhile_cons_true (by decide),
        dropWhile_cons_true (by decide), dropWhile_cons_true (by decide),
        dropWhile_cons_true (by decide), dropWhile_cons_false (by decide)]
      rfl
    rw [hdrop]
    have hsuf : [backtick, backtick, backtick].isSuffixOf
        ((c0 :: t) ++ ['\n', backtick, backtick, backtick]) = true := by
      rw [List.isSuffixOf_iff_suffix]
      exact ⟨(c0 :: t) ++ ['\n'], by simp⟩
    rw [hsuf]
    simp only [if_true]
    have hlen : ((c0 :: t) ++ ['\n', backtick, backtick, backtick]).length - 3 =
        (c0 :: t).length + 1 := by
      simp only [List.length_append, List.length_cons]
      simp
    have htake : ((c0 :: t) ++ ['\n', backtick, backtick, backtick]).take
        ((c0 :: t).length + 1) = (c0 :: t) ++ ['\n'] := by
      rw [List.take_append]
      rfl
    rw [hlen, htake]
    have : pyStrip ((c0 :: t) ++ ['\n']) = c0 :: t := by
      unfold pyStrip
      have hl : pyStripLeft ((c0 :: t) ++ ['\n']) = (c0 :: t) ++ ['\n'] := by
        unfold pyStripLeft
        refine dropWhile_eq_self_of_head _ _ (fun c hc => ?_)
        simp only [List.cons_append, List.head?_cons, Option.some.injEq] at hc
        rw [← hc]; exact isOpenBr_not_ws hopen
      rw [hl]
      rw [pyStripRight_append _ _ (fun c hc => by
        rw [hlast] at hc; rw [← Option.some.inj hc]; exact isCloseBr_not_ws hcl)]
      have : pyStripRight (['\n'] : Str) = [] := by decide
      rw [this, List.append_nil]
    rw [this]
  unfold strip_markdown_json
  rw [hstripfence, hfences]
  exact stripSpanStage_of_balanced c0 t hopen hbal

end DeepResearch

namespace DeepResearch

/-- **C7.** For every valid JSON array `j` of sub-task objects — modelled
as any text forming a single balanced bracket span that starts with `[`
(the scanner's string state covers nested braces/brackets inside string
values) — applying the plan parser to `j` wrapped in markdown code
fences, or to `j` followed by trailing commentary, yields the same list
of `SubTask` values as parsing `j` without the wrapper or noise. -/
theorem C7_json_extraction (decode : Str → Except Str (List SubTask)) (t noise : Str)
    (hbal : balancedJson ('[' :: t)) :
    parse_sub_tasks decode (mdFence ('[' :: t)) = parse_sub_tasks decode ('[' :: t) ∧
    parse_sub_tasks decode (('[' :: t) ++ noise) = parse_sub_tasks decode ('[' :: t) := by
  have hopen : isOpenBr '[' = true := by decide
  unfold parse_sub_tasks
  rw [strip_markdown_json_mdFence _ _ hopen hbal, strip_markdown_json_append _ _ _ hopen hbal,
    strip_markdown_json_of_balanced _ _ hopen hbal]
  exact ⟨rfl, rfl⟩

/-- Witness for C7 at a concrete array whose string value contains nested
braces, with trailing commentary noise. -/
theorem C7_json_extraction_witness :
    balancedJson (String.toList "[\x7b\"id\": \"t1\", \"objective\": \"a \x7bb\x7d c\"\x7d]") ∧
    (parse_sub_tasks (fun s => Except.error s)
        (mdFence (String.toList "[\x7b\"id\": \"t1\", \"objective\": \"a \x7bb\x7d c\"\x7d]")) =
      parse_sub_tasks (fun s => Except.error s)
        (String.toList "[\x7b\"id\": \"t1\", \"objective\": \"a \x7bb\x7d c\"\x7d]") ∧
    parse_sub_tasks (fun s => Except.error s)
        (String.toList "[\x7b\"id\": \"t1\", \"objective\": \"a \x7bb\x7d c\"\x7d]" ++
          String.toList " some trailing commentary") =
      parse_sub_tasks (fun s => Except.error s)
        (String.toList "[\x7b\"id\": \"t1\", \"objective\": \"a \x7bb\x7d c\"\x7d]")) := by
  refine ⟨by decide, ?_⟩
  have h := C7_json_extraction (fun s => Except.error s)
    (String.toList "\x7b\"id\": \"t1\", \"objective\": \"a \x7bb\x7d c\"\x7d]")
    (String.toList " some trailing commentary") (by decide)
  exact h

/-- **C8.** The planner derives 1 worker for complexity below 0.3, 3
workers on `[0.3, 0.6)`, and 5 workers at or above 0.6, over the whole
range of scores. -/
theorem C8_worker_count (c : ℚ) :
    (c < 3/10 → numWorkersFor c = 1) ∧
    (3/10 ≤ c ∧ c < 6/10 → numWorkersFor c = 3) ∧
    (6/10 ≤ c → numWorkersFor c = 5) := by
  refine ⟨fun h => ?_, fun h => ?_, fun h => ?_⟩ <;> unfold numWorkersFor
  · rw [if_pos h]
  · rw [if_neg (not_lt.mpr h.1), if_pos h.2]
  · rw [if_neg (not_lt.mpr (le_trans (by norm_num) h)), if_neg (not_lt.mpr h)]

/-- Witness for C8 at one score in each band. -/
theorem C8_worker_count_witness :
    ((1 : ℚ)/10 < 3/10 ∧ numWorkersFor (1/10) = 1) ∧
    ((3 : ℚ)/10 ≤ 45/100 ∧ (45 : ℚ)/100 < 6/10 ∧ numWorkersFor (45/100) = 3) ∧
    ((6 : ℚ)/10 ≤ 9/10 ∧ numWorkersFor (9/10) = 5) := by
  refine ⟨⟨by norm_num, (C8_worker_count (1/10)).1 (by norm_num)⟩,
    ⟨by norm_num, by norm_num, (C8_worker_count (45/100)).2.1 ⟨by norm_num, by norm_num⟩⟩,
    ⟨by norm_num, (C8_worker_count (9/10)).2.2 (by norm_num)⟩⟩

end DeepResearch

namespace DeepResearch

/-- Any report successfully returned by the ReAct loop is either an
answered report or the exhausted report of the final state. -/
theorem researchLoop_report_shape (env : ReactEnv) (cfg : AgentConfig) (q : Str) :
    ∀ (fuel : Nat) (st : AgentState) (rep : ResearchReport) (stF : AgentState),
      researchLoop env cfg q fuel st = .ok (rep, stF) →
      (∃ c, rep = answeredReport cfg q stF c) ∨ rep = exhaustedReport cfg q stF := by
  intro fuel
  induction fuel with
  | zero =>
    intro st rep stF h
    simp only [researchLoop] at h
    obtain ⟨h1, h2⟩ := Prod.mk.injEq .. ▸ Except.ok.inj h
    exact Or.inr (by rw [← h1, h2])
  | succ fuel ih =>
    intro st rep stF h
    simp only [researchLoop] at h
    cases hstep : reactStep env st with
    | error e => rw [hstep] at h; exact absurd h (by simp)
    | ok p =>
      rw [hstep] at h
      by_cases hans : has_answer p.2 = true
      · simp only [hans, if_true] at h
        obtain ⟨h1, h2⟩ := Prod.mk.injEq .. ▸ Except.ok.inj h
        exact Or.inl ⟨p.2, by rw [← h1, h2]⟩
      · simp only [hans, Bool.false_eq_true, if_false] at h
        exact ih _ _ _ h

/-- **C10.** `ReactAgent.research` resets the iteration counter, all
token counters, the visited-URL set, the recorded iterations, and the
message history before the loop starts, so its outcome (report and final
state) is the same whatever instance state a previous `research` call
left behind. -/
theorem C10_research_resets_state (env : ReactEnv) (cfg : AgentConfig) (q : Str)
    (st st' : AgentState) :
    reactResearch env cfg st q = reactResearch env cfg st' q := by
  unfold reactResearch
  have h : resetForRun st q = resetForRun st' q := rfl
  rw [h]

/-- **C9 (amended).** After `WorkerAgent.execute` the context's status is
terminal; `completed` implies the error is unset and `final_output`
equals the returned report content (which is non-empty whenever the run
ended by exhaustion, but may be empty when the LLM's answer delimiter
carries an empty payload); `failed` implies the error is set. -/
theorem C9_status_invariant (env : ReactEnv) (workerId objective now : Str) :
    ((workerAgentExecute env workerId objective now).2.status = String.toList "completed" ∨
      (workerAgentExecute env workerId objective now).2.status = String.toList "failed") ∧
    ((workerAgentExecute env workerId objective now).2.status = String.toList "completed" →
      (workerAgentExecute env workerId objective now).2.error = none ∧
      (workerAgentExecute env workerId objective now).2.final_output =
        (workerAgentExecute env workerId objective now).1.content) ∧
    ((workerAgentExecute env workerId objective now).2.status = String.toList "failed" →
      (workerAgentExecute env workerId objective now).2.error ≠ none) ∧
    ((workerAgentExecute env workerId objective now).2.status = String.toList "completed" ∧
      (workerAgentExecute env workerId objective now).1.metadata.error =
        some (String.toList "max_iterations") →
      (workerAgentExecute env workerId objective now).2.final_output ≠ []) := by
  unfold workerAgentExecute
  cases hres : reactResearch env (workerCfg workerId) initialAgentState objective with
  | error e =>
    dsimp only
    refine ⟨Or.inr rfl, fun hc => ?_, fun _ => by simp, fun hc => ?_⟩
    · exact absurd hc (by decide)
    · exact absurd hc.1 (by decide)
  | ok p =>
    obtain ⟨rep, stF⟩ := p
    dsimp only
    refine ⟨Or.inl rfl, fun _ => ⟨rfl, rfl⟩, fun hf => ?_, fun hc => ?_⟩
    · exact absurd hf (by decide)
    · rcases researchLoop_report_shape env (workerCfg workerId) objective _ _ _ _ hres
        with ⟨c, hrep⟩ | hrep
      · rw [hrep] at hc
        simp only [answeredReport] at hc
        exact absurd hc.2 (by simp)
      · rw [hrep]
        simp only [exhaustedReport]
        decide

end DeepResearch

namespace DeepResearch

/-- An environment whose LLM always answers with an empty `<answer>`
payload (used to refute the unqualified non-emptiness in C9). -/
def envEmptyAnswer : ReactEnv :=
  { llm := fun _ => .ok
      { content := String.toList "<answer></answer>", tool_calls := [], usage := some (0, 0) }
    searchContent := fun _ _ => []
    fetchSuccess := fun _ => false
    fetchContent := fun _ => []
    countTokens := fun _ => 0 }

/-- **C9 (counterexample).** A worker whose LLM replies
`<answer></answer>` ends with `status = "completed"` but an **empty**
`final_output` (and unset error), refuting the claimed invariant
`completed ⇒ final_output non-empty`. -/
theorem C9_counterexample :
    (workerAgentExecute envEmptyAnswer (String.toList "w1") (String.toList "topic")
        (String.toList "t0")).2.status = String.toList "completed" ∧
    (workerAgentExecute envEmptyAnswer (String.toList "w1") (String.toList "topic")
        (String.toList "t0")).2.final_output = [] ∧
    (workerAgentExecute envEmptyAnswer (String.toList "w1") (String.toList "topic")
        (String.toList "t0")).2.error = none := by
  decide

end DeepResearch

namespace DeepResearch

@[simp] theorem recordUsage_iterations (env : ReactEnv) (st : AgentState) (r : LLMResponse) :
    (recordUsage env st r).iterations = st.iterations := by
  unfold recordUsage; cases r.usage <;> rfl

@[simp] theorem recordUsage_messages (env : ReactEnv) (st : AgentState) (r : LLMResponse) :
    (recordUsage env st r).messages = st.messages := by
  unfold recordUsage; cases r.usage <;> rfl

@[simp] theorem recordUsage_visited (env : ReactEnv) (st : AgentState) (r : LLMResponse) :
    (recordUsage env st r).visited_urls = st.visited_urls := by
  unfold recordUsage; cases r.usage <;> rfl

@[simp] theorem recordUsage_react_iterations (env : ReactEnv) (st : AgentState)
    (r : LLMResponse) :
    (recordUsage env st r).react_iterations = st.react_iterations := by
  unfold recordUsage; cases r.usage <;> rfl

/-- When the LLM is total, one `_step` succeeds, returns the response
content, and bumps the iteration counter by exactly one. -/
theorem reactStep_ok_of_total (env : ReactEnv) (st : AgentState)
    (hok : ∀ msgs, ∃ r, env.llm msgs = .ok r) :
    ∃ st1 r, reactStep env st = .ok (st1, r.content) ∧
      env.llm (truncateMessages st.messages) = .ok r ∧
      st1.iterations = st.iterations + 1 := by
  obtain ⟨r, hr⟩ := hok (truncateMessages st.messages)
  unfold reactStep
  dsimp only
  rw [hr]
  by_cases ha : has_answer r.content
  · simp only [ha, if_true]
    exact ⟨_, r, rfl, rfl, by simp⟩
  · simp only [ha, Bool.false_eq_true, if_false]
    exact ⟨_, r, rfl, rfl, by simp⟩

/-- With an always-successful LLM that never emits the answer delimiter,
the loop consumes all its fuel and returns the exhausted report, having
run exactly `fuel` further iterations. -/
theorem researchLoop_exhausts (env : ReactEnv) (cfg : AgentConfig) (q : Str)
    (hok : ∀ msgs, ∃ r, env.llm msgs = .ok r)
    (hnoans : ∀ msgs r, env.llm msgs = .ok r → has_answer r.content = false) :
    ∀ (fuel : Nat) (st : AgentState), ∃ stF,
      researchLoop env cfg q fuel st = .ok (exhaustedReport cfg q stF, stF) ∧
      stF.iterations = st.iterations + fuel := by
  intro fuel
  induction fuel with
  | zero => intro st; exact ⟨st, rfl, rfl⟩
  | succ fuel ih =>
    intro st
    obtain ⟨st1, r, hstep, hllm, hiter⟩ := reactStep_ok_of_total env st hok
    have hna := hnoans _ _ hllm
    obtain ⟨stF, hloop, hiters⟩ := ih
      (if overBudget cfg st1 then
        { st1 with messages := st1.messages ++ [Msg.system budgetDirective] }
      else st1)
    refine ⟨stF, ?_, ?_⟩
    · simp only [researchLoop, hstep, hna, Bool.false_eq_true, if_false]
      exact hloop
    · have hb : (if overBudget cfg st1 then
          { st1 with messages := st1.messages ++ [Msg.system budgetDirective] }
        else st1).iterations = st1.iterations := by
        split <;> rfl
      rw [hiters, hb, hiter]
      omega

/-- **C4.** With an LLM whose responses never contain the `<answer>`
delimiter, `research` terminates after exactly `max_iterations`
iterations and returns the exhausted report: its metadata records
`error = "max_iterations"` and the iteration count, and its sources are
the sorted visited URLs of the final state.  The defaults are 20
iterations for the lead-level single-agent mode and 15 for fan-out
workers. -/
theorem C4_budget_termination (env : ReactEnv) (cfg : AgentConfig) (q : Str) (st : AgentState)
    (hok : ∀ msgs, ∃ r, env.llm msgs = .ok r)
    (hnoans : ∀ msgs r, env.llm msgs = .ok r → has_answer r.content = false) :
    ∃ stF, reactResearch env cfg st q = .ok (exhaustedReport cfg q stF, stF) ∧
      stF.iterations = cfg.max_iterations ∧
      (exhaustedReport cfg q stF).metadata.error = some (String.toList "max_iterations") ∧
      (exhaustedReport cfg q stF).metadata.iterations = cfg.max_iterations ∧
      (exhaustedReport cfg q stF).sources = pySortedStrs stF.visited_urls ∧
      reactDefaultMaxIterations = 20 ∧ workerMaxIterations = 15 := by
  obtain ⟨stF, h, hiter⟩ :=
    researchLoop_exhausts env cfg q hok hnoans cfg.max_iterations (resetForRun st q)
  have h0 : (resetForRun st q).iterations = 0 := rfl
  rw [h0] at hiter
  have hiter' : stF.iterations = cfg.max_iterations := by omega
  exact ⟨stF, h, hiter', by rw [exhaustedReport], by
    simp only [exhaustedReport]; exact hiter', rfl, rfl, rfl⟩

end DeepResearch

namespace DeepResearch

/-- Totality of Python string comparison. -/
theorem strLeB_total : ∀ a b : Str, strLeB a b = true ∨ strLeB b a = true := by
  intro a
  induction a with
  | nil => intro b; left; rfl
  | cons x xs ih =>
    intro b
    cases b with
    | nil => right; rfl
    | cons y ys =>
      rcases lt_trichotomy x y with h | h | h
      · left; simp [strLeB, h]
      · subst h
        rcases ih ys with h2 | h2
        · left; simp [strLeB, lt_irrefl, h2]
        · right; simp [strLeB, lt_irrefl, h2]
      · right; simp [strLeB, h]

/-- Transitivity of Python string comparison. -/
theorem strLeB_trans : ∀ a b c : Str, strLeB a b = true → strLeB b c = true →
    strLeB a c = true := by
  intro a
  induction a with
  | nil => intro b c _ _; rfl
  | cons x xs ih =>
    intro b c hab hbc
    cases b with
    | nil => simp [strLeB] at hab
    | cons y ys =>
      cases c with
      | nil => simp [strLeB] at hbc
      | cons z zs =>
        simp only [strLeB] at hab hbc ⊢
        by_cases h1 : x < y
        · by_cases h2 : y < z
          · rw [if_pos (lt_trans h1 h2)]
          · by_cases h3 : z < y
            · rw [if_neg h2, if_pos h3] at hbc
              exact absurd hbc (by simp)
            · have hyz : y = z := le_antisymm (not_lt.mp h3) (not_lt.mp h2)
              subst hyz
              rw [if_pos h1]
        · by_cases h1' : y < x
          · rw [if_neg h1, if_pos h1'] at hab
            exact absurd hab (by simp)
          · have hxy : x = y := le_antisymm (not_lt.mp h1') (not_lt.mp h1)
            subst hxy
            rw [if_neg h1, if_neg h1'] at hab
            by_cases h2 : x < z
            · rw [if_pos h2]
            · by_cases h3 : z < x
              · rw [if_neg h2, if_pos h3] at hbc
                exact absurd hbc (by simp)
              · have hxz : x = z := le_antisymm (not_lt.mp h3) (not_lt.mp h2)
                subst hxz
                rw [if_neg h2, if_neg h3] at hbc ⊢
                exact ih _ _ hab hbc

instance : IsTotal Str (fun a b => strLeB a b = true) := ⟨strLeB_total⟩

instance : IsTrans Str (fun a b => strLeB a b = true) := ⟨strLeB_trans⟩

/-- `sorted` output is sorted. -/
theorem pySortedStrs_sorted (l : List Str) :
    (pySortedStrs l).Pairwise (fun a b => strLeB a b = true) :=
  List.sorted_insertionSort _ l

/-- `sorted` output is a permutation of the input. -/
theorem pySortedStrs_perm (l : List Str) : List.Perm (pySortedStrs l) l :=
  List.perm_insertionSort _ l

end DeepResearch

namespace DeepResearch

/-- The bookkeeping invariant of a run: the visited set is duplicate-free
and contains exactly the URLs of successful fetch tool-calls recorded in
the ReAct trace. -/
def VisitedInv (env : ReactEnv) (st : AgentState) : Prop :=
  st.visited_urls.Nodup ∧
  ∀ u, u ∈ st.visited_urls ↔
    ∃ it ∈ st.react_iterations, ∃ a ∈ it.actions,
      a.req = ToolReq.fetch u ∧ env.fetchSuccess u = true

theorem addVisited_nodup (v : List Str) (u : Str) (h : v.Nodup) :
    (addVisited v u).Nodup := by
  unfold addVisited
  split
  · exact h
  · next hne =>
    simp [List.nodup_append]
    exact ⟨h, hne⟩

theorem mem_addVisited (v : List Str) (u w : Str) :
    w ∈ addVisited v u ↔ w ∈ v ∨ w = u := by
  unfold addVisited
  split
  · next hmem =>
    constructor
    · exact fun hw => Or.inl hw
    · rintro (hw | rfl)
      · exact hw
      · exact hmem
  · simp [List.mem_append]

/-- The effect of one `_step`'s tool loop on the visited set: no
duplicates are introduced, and the final membership is the old
membership plus the successfully fetched URLs recorded in this step's
actions. -/
theorem execToolCalls_visited (env : ReactEnv) (iter : Nat) :
    ∀ (reqs : List ToolReq) (visited : List Str),
      (visited.Nodup → (execToolCalls env iter reqs visited).visited.Nodup) ∧
      ∀ u, u ∈ (execToolCalls env iter reqs visited).visited ↔
        u ∈ visited ∨ ∃ a ∈ (execToolCalls env iter reqs visited).recs,
          a.req = ToolReq.fetch u ∧ env.fetchSuccess u = true := by
  intro reqs
  induction reqs with
  | nil =>
    intro visited
    refine ⟨fun h => h, fun u => ?_⟩
    simp [execToolCalls]
  | cons r rs ih =>
    intro visited
    cases r with
    | search q n =>
      refine ⟨fun h => ((ih visited).1 h), fun u => ?_⟩
      have := (ih visited).2 u
      simp only [execToolCalls, execToolCall] at this ⊢
      rw [this]
      constructor
      · rintro (h | ⟨a, ha, hreq, hs⟩)
        · exact Or.inl h
        · exact Or.inr ⟨a, List.mem_cons_of_mem _ ha, hreq, hs⟩
      · rintro (h | ⟨a, ha, hreq, hs⟩)
        · exact Or.inl h
        · rcases List.mem_cons.mp ha with rfl | ha'
          · exact absurd hreq (by simp)
          · exact Or.inr ⟨a, ha', hreq, hs⟩
    | fetch url =>
      constructor
      · intro h
        simp only [execToolCalls, execToolCall]
        refine (ih _).1 ?_
        split
        · exact addVisited_nodup _ _ h
        · exact h
      · intro u
        have hih := (ih (if env.fetchSuccess url then addVisited visited url
          else visited)).2 u
        simp only [execToolCalls, execToolCall] at hih ⊢
        rw [hih]
        by_cases hs : env.fetchSuccess url = true
        · simp only [hs, if_true]
          rw [mem_addVisited]
          constructor
          · rintro ((h | rfl) | ⟨a, ha, hreq, hs2⟩)
            · exact Or.inl h
            · exact Or.inr ⟨_, List.mem_cons_self _ _, rfl, hs⟩
            · exact Or.inr ⟨a, List.mem_cons_of_mem _ ha, hreq, hs2⟩
          · rintro (h | ⟨a, ha, hreq, hs2⟩)
            · exact Or.inl (Or.inl h)
            · rcases List.mem_cons.mp ha with rfl | ha'
              · simp only [ToolReq.fetch.injEq] at hreq
                exact Or.inl (Or.inr hreq.symm)
              · exact Or.inr ⟨a, ha', hreq, hs2⟩
        · simp only [hs, Bool.false_eq_true, if_false]
          constructor
          · rintro (h | ⟨a, ha, hreq, hs2⟩)
            · exact Or.inl h
            · exact Or.inr ⟨a, List.mem_cons_of_mem _ ha, hreq, hs2⟩
          · rintro (h | ⟨a, ha, hreq, hs2⟩)
            · exact Or.inl h
            · rcases List.mem_cons.mp ha with rfl | ha'
              · simp only [ToolReq.fetch.injEq] at hreq
                rw [← hreq] at hs2
                exact absurd hs2 hs
              · exact Or.inr ⟨a, ha', hreq, hs2⟩
    | unknown n =>
      refine ⟨fun h => ((ih visited).1 h), fun u => ?_⟩
      have := (ih visited).2 u
      simp only [execToolCalls, execToolCall] at this ⊢
      rw [this]
      constructor
      · rintro (h | ⟨a, ha, hreq, hs⟩)
        · exact Or.inl h
        · exact Or.inr ⟨a, List.mem_cons_of_mem _ ha, hreq, hs⟩
      · rintro (h | ⟨a, ha, hreq, hs⟩)
        · exact Or.inl h
        · rcases List.mem_cons.mp ha with rfl | ha'
          · exact absurd hreq (by simp)
          · exact Or.inr ⟨a, ha', hreq, hs⟩

end DeepResearch

namespace DeepResearch

/-- One `_step` preserves the visited/trace invariant. -/
theorem reactStep_inv (env : ReactEnv) (st st1 : AgentState) (content : Str)
    (h : reactStep env st = .ok (st1, content)) (hinv : VisitedInv env st) :
    VisitedInv env st1 := by
  unfold reactStep at h
  dsimp only at h
  cases hllm : env.llm (truncateMessages st.messages) with
  | error e => rw [hllm] at h; exact absurd h (by simp)
  | ok resp =>
    rw [hllm] at h
    by_cases ha : has_answer resp.content
    · simp only [ha, if_true] at h
      obtain ⟨h1, h2⟩ := Prod.mk.injEq .. ▸ Except.ok.inj h
      subst h1
      refine ⟨by simpa using hinv.1, fun u => ?_⟩
      have hmem := hinv.2 u
      simp only [recordUsage_visited, recordUsage_react_iterations]
      rw [hmem]
      simp only [List.mem_append, List.mem_singleton]
      constructor
      · rintro ⟨it, hit, ha2⟩
        exact ⟨it, Or.inl hit, ha2⟩
      · rintro ⟨it, hit | rfl, ha2⟩
        · exact ⟨it, hit, ha2⟩
        · obtain ⟨a, ha3, _⟩ := ha2
          exact absurd ha3 (List.not_mem_nil a)
    · simp only [ha, Bool.false_eq_true, if_false] at h
      obtain ⟨h1, h2⟩ := Prod.mk.injEq .. ▸ Except.ok.inj h
      subst h1
      have hex := execToolCalls_visited env (st.iterations + 1) resp.tool_calls
        st.visited_urls
      refine ⟨?_, fun u => ?_⟩
      · simpa using hex.1 hinv.1
      · have hmem := (hex.2 u)
        have hold := hinv.2 u
        simp only [recordUsage_iterations, recordUsage_visited,
          recordUsage_react_iterations] at *
        rw [hmem, hold]
        simp only [List.mem_append, List.mem_singleton]
        constructor
        · rintro (⟨it, hit, ha'⟩ | ⟨a, harec, hreq⟩)
          · exact ⟨it, Or.inl hit, ha'⟩
          · exact ⟨_, Or.inr rfl, a, harec, hreq⟩
        · rintro ⟨it, hit | rfl, ha'⟩
          · exact Or.inl ⟨it, hit, ha'⟩
          · exact Or.inr ha'

end DeepResearch

namespace DeepResearch

/-- The loop preserves the visited/trace invariant through to the final
state. -/
theorem researchLoop_inv (env : ReactEnv) (cfg : AgentConfig) (q : Str) :
    ∀ (fuel : Nat) (st : AgentState) (rep : ResearchReport) (stF : AgentState),
      researchLoop env cfg q fuel st = .ok (rep, stF) →
      VisitedInv env st → VisitedInv env stF := by
  intro fuel
  induction fuel with
  | zero =>
    intro st rep stF h hinv
    simp only [researchLoop] at h
    obtain ⟨_, h2⟩ := Prod.mk.injEq .. ▸ Except.ok.inj h
    rwa [← h2]
  | succ fuel ih =>
    intro st rep stF h hinv
    simp only [researchLoop] at h
    cases hstep : reactStep env st with
    | error e => rw [hstep] at h; exact absurd h (by simp)
    | ok p =>
      rw [hstep] at h
      obtain ⟨st1, content⟩ := p
      have hinv1 := reactStep_inv env st st1 content hstep hinv
      by_cases hans : has_answer content = true
      · simp only [hans, if_true] at h
        obtain ⟨_, h2⟩ := Prod.mk.injEq .. ▸ Except.ok.inj h
        rwa [← h2]
      · simp only [hans, Bool.false_eq_true, if_false] at h
        refine ih _ _ _ h ?_
        split
        · exact hinv1
        · exact hinv1

/-- **C5.** For every worker run that returns a report, the report's
`sources` are sorted (Python string order) and duplicate-free, and a URL
is listed exactly when some recorded fetch tool-call for it succeeded
during that run; URLs that were merely searched, merely mentioned in
text, or whose fetch failed never appear. -/
theorem C5_source_accuracy (env : ReactEnv) (cfg : AgentConfig) (q : Str) (st : AgentState)
    (rep : ResearchReport) (stF : AgentState)
    (hrun : reactResearch env cfg st q = .ok (rep, stF)) :
    rep.sources.Pairwise (fun a b => strLeB a b = true) ∧
    rep.sources.Nodup ∧
    ∀ u, u ∈ rep.sources ↔
      ∃ it ∈ stF.react_iterations, ∃ a ∈ it.actions,
        a.req = ToolReq.fetch u ∧ env.fetchSuccess u = true := by
  have hinit : VisitedInv env (resetForRun st q) := by
    refine ⟨List.nodup_nil, fun u => ?_⟩
    simp [resetForRun]
  have hinvF : VisitedInv env stF :=
    researchLoop_inv env cfg q cfg.max_iterations (resetForRun st q) rep stF hrun hinit
  have hsrc : rep.sources = pySortedStrs stF.visited_urls := by
    rcases researchLoop_report_shape env cfg q _ _ _ _ hrun with ⟨c, hrep⟩ | hrep <;>
      rw [hrep] <;> rfl
  rw [hsrc]
  refine ⟨pySortedStrs_sorted _, ?_, fun u => ?_⟩
  · exact (pySortedStrs_perm _).nodup_iff.mpr hinvF.1
  · rw [(pySortedStrs_perm _).mem_iff]
    exact hinvF.2 u

end DeepResearch

namespace DeepResearch

/-- A mock environment whose LLM never emits the answer delimiter. -/
def envNoAnswer : ReactEnv :=
  { llm := fun _ => .ok
      { content := String.toList "still thinking", tool_calls := [], usage := some (5, 7) }
    searchContent := fun _ _ => []
    fetchSuccess := fun _ => true
    fetchContent := fun _ => []
    countTokens := fun s => s.length }

/-- Witness for C4: a three-iteration budget with the mock LLM exhausts
in exactly three iterations. -/
theorem C4_budget_termination_witness :
    (∀ msgs, ∃ r, envNoAnswer.llm msgs = .ok r) ∧
    (∀ msgs r, envNoAnswer.llm msgs = .ok r → has_answer r.content = false) ∧
    ∃ stF, reactResearch envNoAnswer
        { model := [], max_iterations := 3, max_tokens := 100, worker_id := [] }
        initialAgentState (String.toList "q") =
        .ok (exhaustedReport
          { model := [], max_iterations := 3, max_tokens := 100, worker_id := [] }
          (String.toList "q") stF, stF) ∧
      stF.iterations = 3 ∧
      (exhaustedReport
          { model := [], max_iterations := 3, max_tokens := 100, worker_id := [] }
          (String.toList "q") stF).metadata.error =
        some (String.toList "max_iterations") := by
  have hok : ∀ msgs, ∃ r, envNoAnswer.llm msgs = .ok r := fun _ => ⟨_, rfl⟩
  have hna : ∀ msgs r, envNoAnswer.llm msgs = .ok r → has_answer r.content = false := by
    intro msgs r h
    injection h with h2
    rw [← h2]
    decide
  refine ⟨hok, hna, ?_⟩
  obtain ⟨stF, h1, h2, h3, _⟩ := C4_budget_termination envNoAnswer
    { model := [], max_iterations := 3, max_tokens := 100, worker_id := [] }
    (String.toList "q") initialAgentState hok hna
  exact ⟨stF, h1, h2, h3⟩

/-- Demo URLs for the C5 witness. -/
def urlA : Str := String.toList "https://a.example"

def urlB : Str := String.toList "https://b.example"

def urlC : Str := String.toList "https://c.example"

/-- Whether a message is a `ToolMessage` (used by the mock LLM to decide
it has already acted). -/
def isToolMsg : Msg → Bool
  | .tool _ => true
  | _ => false

/-- A mock environment whose LLM first fetches three URLs (one of them
twice, one of them failing) and searches, then answers. -/
def envFetchDemo : ReactEnv :=
  { llm := fun msgs =>
      if msgs.any isToolMsg then
        .ok { content := String.toList "<answer>done</answer>", tool_calls := [],
              usage := some (1, 1) }
      else
        .ok { content := String.toList "let me look", usage := some (1, 1),
              tool_calls := [.fetch urlB, .fetch urlA, .fetch urlA, .fetch urlC,
                .search (String.toList "ev adoption") 10] }
    searchContent := fun _ _ => String.toList "results"
    fetchSuccess := fun u => !(u == urlC)
    fetchContent := fun _ => String.toList "page"
    countTokens := fun s => s.length }

/-- Witness for C5 on the demo environment: the run returns, and its
sources satisfy the sortedness/dedup/membership characterisation. -/
theorem C5_source_accuracy_witness :
    ∃ rep stF, reactResearch envFetchDemo
        { model := [], max_iterations := 4, max_tokens := 1000, worker_id := [] }
        initialAgentState (String.toList "q") = .ok (rep, stF) ∧
      (rep.sources.Pairwise (fun a b => strLeB a b = true) ∧
        rep.sources.Nodup ∧
        ∀ u, u ∈ rep.sources ↔
          ∃ it ∈ stF.react_iterations, ∃ a ∈ it.actions,
            a.req = ToolReq.fetch u ∧ envFetchDemo.fetchSuccess u = true) := by
  have hisok : (reactResearch envFetchDemo
      { model := [], max_iterations := 4, max_tokens := 1000, worker_id := [] }
      initialAgentState (String.toList "q")).isOk = true := by decide
  cases hrun : reactResearch envFetchDemo
      { model := [], max_iterations := 4, max_tokens := 1000, worker_id := [] }
      initialAgentState (String.toList "q") with
  | error e => rw [hrun] at hisok; simp [Except.isOk, Except.toBool] at hisok
  | ok p =>
    obtain ⟨rep, stF⟩ := p
    exact ⟨rep, stF, rfl, C5_source_accuracy envFetchDemo
      { model := [], max_iterations := 4, max_tokens := 1000, worker_id := [] }
      (String.toList "q") initialAgentState rep stF hrun⟩

end DeepResearch

namespace DeepResearch

/-- `list(set(xs))` is duplicate-free and preserves membership. -/
theorem pySetList_go (l : List Str) :
    ∀ acc : List Str, acc.Nodup →
      (l.foldl (fun acc u => if u ∈ acc then acc else acc ++ [u]) acc).Nodup ∧
      ∀ u, u ∈ l.foldl (fun acc u => if u ∈ acc then acc else acc ++ [u]) acc ↔
        u ∈ acc ∨ u ∈ l := by
  induction l with
  | nil =>
    intro acc hacc
    exact ⟨hacc, fun u => by simp⟩
  | cons x xs ih =>
    intro acc hacc
    simp only [List.foldl_cons]
    by_cases hx : x ∈ acc
    · rw [if_pos hx]
      obtain ⟨h1, h2⟩ := ih acc hacc
      refine ⟨h1, fun u => ?_⟩
      rw [h2 u]
      constructor
      · rintro (h | h)
        · exact Or.inl h
        · exact Or.inr (List.mem_cons_of_mem _ h)
      · rintro (h | h)
        · exact Or.inl h
        · rcases List.mem_cons.mp h with rfl | h'
          · exact Or.inl hx
          · exact Or.inr h'
    · rw [if_neg hx]
      have hacc' : (acc ++ [x]).Nodup := by
        simp [List.nodup_append]
        exact ⟨hacc, hx⟩
      obtain ⟨h1, h2⟩ := ih (acc ++ [x]) hacc'
      refine ⟨h1, fun u => ?_⟩
      rw [h2 u]
      simp only [List.mem_append, List.mem_singleton, List.mem_cons]
      tauto

/-- `pySetList` specification. -/
theorem pySetList_spec (l : List Str) :
    (pySetList l).Nodup ∧ ∀ u, u ∈ pySetList l ↔ u ∈ l := by
  have h := pySetList_go l [] List.nodup_nil
  unfold pySetList
  refine ⟨h.1, fun u => ?_⟩
  rw [(h.2 u)]
  simp

/-- **C3.** If planning succeeded, a worker that times out or raises is
replaced by a failure-shaped entry (empty sources, metadata carrying the
error and the worker id, a summary describing the failure), every
sub-task still contributes its entry to the synthesis input, and
`research()` returns instead of raising. -/
theorem C3_fanout_isolation (env : OrchEnv) (model q : Str) (complexity : ℚ)
    (tasks : List SubTask) (t : SubTask)
    (hana : analyzeStep env q = .ok complexity)
    (hplan : planStep env q complexity = .ok tasks)
    (ht : t ∈ tasks)
    (hfail : env.schedule t = SchedOutcome.timeout ∨
      ∃ e, env.schedule t = SchedOutcome.raises e) :
    ∃ r, leadResearch env model q = .ok r ∧
      r.worker_results = tasks.map (workerExecutionStep env) ∧
      workerExecutionStep env t ∈ r.worker_results ∧
      (∀ t', t' ∈ tasks → workerExecutionStep env t' ∈ r.worker_results) ∧
      (workerExecutionStep env t).sources = [] ∧
      (workerExecutionStep env t).metadata.worker_id = some t.id ∧
      (workerExecutionStep env t).metadata.error ≠ none ∧
      (env.schedule t = SchedOutcome.timeout →
        (workerExecutionStep env t).summary =
          String.toList "Worker timed out after 30 minutes. Task: " ++ t.objective) ∧
      (∀ e, env.schedule t = SchedOutcome.raises e →
        (workerExecutionStep env t).summary =
          String.toList "Worker failed: " ++ e ++ String.toList ". Task: " ++ t.objective) ∧
      r.report = env.synthLLM q (interNl (r.worker_results.map (fun e => e.summary))) ∧
      r.workers_count = tasks.length := by
  have hshape : ∀ P : WorkerEntry → Prop,
      (env.schedule t = SchedOutcome.timeout →
        P { task_id := t.id
            summary := String.toList "Worker timed out after 30 minutes. Task: " ++ t.objective
            sources := []
            metadata := { error := some (String.toList "timeout"), worker_id := some t.id } }) →
      (∀ e, env.schedule t = SchedOutcome.raises e →
        P { task_id := t.id
            summary := String.toList "Worker failed: " ++ e ++ String.toList ". Task: " ++
              t.objective
            sources := []
            metadata := { error := some e, worker_id := some t.id } }) →
      P (workerExecutionStep env t) := by
    intro P htime hraise
    rcases hfail with hf | ⟨e, hf⟩
    · unfold workerExecutionStep
      rw [hf]
      exact htime hf
    · unfold workerExecutionStep
      rw [hf]
      exact hraise e hf
  have hlr : leadResearch env model q = .ok
      { report := (synthesizeStep env model q (tasks.map (workerExecutionStep env))).report
        sources := (synthesizeStep env model q (tasks.map (workerExecutionStep env))).sources
        workers_count :=
          (synthesizeStep env model q (tasks.map (workerExecutionStep env))).workers_count
        model := (synthesizeStep env model q (tasks.map (workerExecutionStep env))).model
        worker_results := tasks.map (workerExecutionStep env) } := by
    unfold leadResearch
    rw [hana]
    dsimp only
    rw [hplan]
  refine ⟨_, hlr, rfl, List.mem_map_of_mem _ ht,
    fun t' ht' => List.mem_map_of_mem _ ht', ?_, ?_, ?_, ?_, ?_, ?_, ?_⟩
  · exact hshape (fun w => w.sources = []) (fun _ => rfl) (fun _ _ => rfl)
  · exact hshape (fun w => w.metadata.worker_id = some t.id) (fun _ => rfl) (fun _ _ => rfl)
  · refine hshape (fun w => w.metadata.error ≠ none) (fun _ => by simp) (fun _ _ => by simp)
  · intro hf
    unfold workerExecutionStep
    rw [hf]
  · intro e hf
    unfold workerExecutionStep
    rw [hf]
  · simp [synthesizeStep]
  · simp [synthesizeStep]

/-- **C6 (amended).** The `sources` of a completed `research()` result
are a deduplicated list whose members are exactly the union of the
worker entries' sources — but the list is **not** sorted (the code uses
`list(set(...))` with no sort; see the counterexample). -/
theorem C6_sources_dedup_union (env : OrchEnv) (model q : Str) (r : OrchResult)
    (hr : leadResearch env model q = .ok r) :
    r.sources.Nodup ∧
    ∀ u, u ∈ r.sources ↔ ∃ w, w ∈ r.worker_results ∧ u ∈ w.sources := by
  have hshape : r.sources = pySetList ((r.worker_results.map (fun w => w.sources)).flatten) := by
    unfold leadResearch at hr
    cases hana : analyzeStep env q with
    | error e => rw [hana] at hr; exact absurd hr (by simp)
    | ok complexity =>
      rw [hana] at hr
      dsimp only at hr
      cases hplan : planStep env q complexity with
      | error e => rw [hplan] at hr; exact absurd hr (by simp)
      | ok tasks =>
        rw [hplan] at hr
        dsimp only at hr
        obtain h1 := Except.ok.inj hr
        rw [← h1]
        rfl
  obtain ⟨hnd, hmem⟩ := pySetList_spec ((r.worker_results.map (fun w => w.sources)).flatten)
  rw [hshape]
  refine ⟨hnd, fun u => ?_⟩
  rw [hmem u]
  simp only [List.mem_flatten, List.mem_map]
  constructor
  · rintro ⟨s, ⟨w, hw, rfl⟩, hu⟩
    exact ⟨w, hw, hu⟩
  · rintro ⟨w, hw, hu⟩
    exact ⟨w.sources, ⟨w, hw, rfl⟩, hu⟩

end DeepResearch

namespace DeepResearch

/-- Demo sub-tasks for the orchestrator witnesses. -/
def taskA : SubTask :=
  { id := String.toList "task_1", objective := String.toList "objective b",
    tools := [String.toList "search"], expected_output := String.toList "eo1" }

def taskB : SubTask :=
  { id := String.toList "task_2", objective := String.toList "objective a",
    tools := [String.toList "search"], expected_output := String.toList "eo2" }

def planTasksDemo : List SubTask := [taskA, taskB]

/-- Worker-level environment for the orchestrator demos: the first
objective's worker fetches `urlB`, the other `urlA`, then both answer. -/
def reactDemoOrch : ReactEnv :=
  { llm := fun msgs =>
      if msgs.any isToolMsg then
        .ok { content := String.toList "<answer>found</answer>", tool_calls := [],
              usage := some (1, 1) }
      else if msgs.any (fun m =>
          match m with
          | .human c => c == String.toList "Research this topic: objective b"
          | _ => false) then
        .ok { content := String.toList "hm", tool_calls := [.fetch urlB], usage := some (1, 1) }
      else
        .ok { content := String.toList "hm", tool_calls := [.fetch urlA], usage := some (1, 1) }
    searchContent := fun _ _ => String.toList "r"
    fetchSuccess := fun _ => true
    fetchContent := fun _ => String.toList "p"
    countTokens := fun s => s.length }

/-- Orchestrator environment in which both workers run to completion. -/
def orchEnvRun : OrchEnv :=
  { react := reactDemoOrch
    schedule := fun _ => .runs (String.toList "t0")
    analyzeLLM := fun _ => .ok (String.toList "ok")
    decodeAnalysis := fun _ => .ok
      { complexity := 1/2
        specificity := 1/2
        domains := []
        multi_step := false }
    planLLM := fun _ _ _ => .ok (String.toList "plan")
    decodeTasks := fun _ => .ok planTasksDemo
    synthLLM := fun _ s => String.toList "REPORT: " ++ s
    compressLLM := fun c => c }

/-- Same environment but the first worker's execution raises. -/
def orchEnvFail : OrchEnv :=
  { orchEnvRun with
    schedule := fun t =>
      if t.id == String.toList "task_1" then .raises (String.toList "boom")
      else .runs (String.toList "t0") }

/-- **C6 (counterexample).** A run whose workers fetched
`https://b.example` then `https://a.example` returns
`sources = [b, a]`: deduplicated union, but **not** sorted — refuting
the claimed sortedness. -/
theorem C6_counterexample :
    ∃ r, leadResearch orchEnvRun [] (String.toList "q") = .ok r ∧
      r.sources = [urlB, urlA] ∧
      ¬ r.sources.Pairwise (fun a b => strLeB a b = true) := by
  have hisok : (leadResearch orchEnvRun [] (String.toList "q")).isOk = true := by decide
  have hsrc : (leadResearch orchEnvRun [] (String.toList "q")).toOption.map
      (fun x => x.sources) = some [urlB, urlA] := by decide
  cases hrun : leadResearch orchEnvRun [] (String.toList "q") with
  | error e =>
    rw [hrun] at hisok
    simp [Except.isOk, Except.toBool] at hisok
  | ok r =>
    rw [hrun] at hsrc
    simp only [Except.toOption, Option.map, Option.some.injEq] at hsrc
    refine ⟨r, rfl, hsrc, ?_⟩
    rw [hsrc]
    decide

/-- Witness for C6 (amended) on the same environment. -/
theorem C6_sources_witness :
    ∃ r, leadResearch orchEnvRun [] (String.toList "q") = .ok r ∧
      (r.sources.Nodup ∧
        ∀ u, u ∈ r.sources ↔ ∃ w, w ∈ r.worker_results ∧ u ∈ w.sources) := by
  have hisok : (leadResearch orchEnvRun [] (String.toList "q")).isOk = true := by decide
  cases hrun : leadResearch orchEnvRun [] (String.toList "q") with
  | error e =>
    rw [hrun] at hisok
    simp [Except.isOk, Except.toBool] at hisok
  | ok r =>
    exact ⟨r, rfl, C6_sources_dedup_union orchEnvRun [] (String.toList "q") r hrun⟩

/-- Witness for C3: the first worker raises `boom`, yet the run returns
with both entries, and the failed worker's entry is failure-shaped. -/
theorem C3_fanout_isolation_witness :
    analyzeStep orchEnvFail (String.toList "q") = .ok (1/2) ∧
    planStep orchEnvFail (String.toList "q") (1/2) = .ok planTasksDemo ∧
    taskA ∈ planTasksDemo ∧
    orchEnvFail.schedule taskA = SchedOutcome.raises (String.toList "boom") ∧
    (∃ r, leadResearch orchEnvFail [] (String.toList "q") = .ok r ∧
      r.worker_results = planTasksDemo.map (workerExecutionStep orchEnvFail) ∧
      workerExecutionStep orchEnvFail taskA ∈ r.worker_results ∧
      (∀ t', t' ∈ planTasksDemo →
        workerExecutionStep orchEnvFail t' ∈ r.worker_results) ∧
      (workerExecutionStep orchEnvFail taskA).sources = [] ∧
      (workerExecutionStep orchEnvFail taskA).metadata.worker_id = some taskA.id ∧
      (workerExecutionStep orchEnvFail taskA).metadata.error ≠ none ∧
      (orchEnvFail.schedule taskA = SchedOutcome.timeout →
        (workerExecutionStep orchEnvFail taskA).summary =
          String.toList "Worker timed out after 30 minutes. Task: " ++ taskA.objective) ∧
      (∀ e, orchEnvFail.schedule taskA = SchedOutcome.raises e →
        (workerExecutionStep orchEnvFail taskA).summary =
          String.toList "Worker failed: " ++ e ++ String.toList ". Task: " ++
            taskA.objective) ∧
      r.report = orchEnvFail.synthLLM (String.toList "q")
        (interNl (r.worker_results.map (fun e => e.summary))) ∧
      r.workers_count = planTasksDemo.length) := by
  refine ⟨rfl, rfl, by simp [planTasksDemo], rfl, ?_⟩
  exact C3_fanout_isolation orchEnvFail [] (String.toList "q") (1/2) planTasksDemo taskA
    rfl rfl (by simp [planTasksDemo]) (Or.inr ⟨String.toList "boom", rfl⟩)

end DeepResearch
namespace DeepResearch

@[simp] theorem vaultGet_set_same (v : Vault) (k : List Str) (f : VFile) :
    vaultGet (vaultSet v k f) k = some f := by
  unfold vaultGet vaultSet
  simp [List.find?]

theorem vaultGet_set_ne (v : Vault) (k k' : List Str) (f : VFile)
    (h : k' ≠ k) :
    vaultGet (vaultSet v k' f) k = vaultGet v k := by
  unfold vaultGet vaultSet
  have hbk : (k' == k) = false := beq_eq_false_iff_ne.mpr h
  simp only [List.find?_cons, hbk]
  congr 1
  induction v with
  | nil => rfl
  | cons e es ih =>
    by_cases he : (e.1 == k') = true
    · have h1 : e.1 = k' := eq_of_beq he
      have hek : (e.1 == k) = false := beq_eq_false_iff_ne.mpr (h1 ▸ h)
      simp only [List.filter_cons, he, Bool.not_true, if_false, Bool.false_eq_true]
      rw [ih, List.find?_cons, hek]
    · have he' : (!(e.1 == k')) = true := by simp [he]
      simp only [List.filter_cons, he', if_true]
      rw [List.find?_cons, List.find?_cons, ih]

end DeepResearch

namespace DeepResearch

/-- The last write of `write_session` is the session MOC, so the
freshly-saved session's record is what a later lookup of
`<session_id>/session.md` returns. -/
theorem vaultGet_writeSession_moc (v : Vault) (s : ResearchSession) :
    vaultGet (writeSession v s) [s.session_id, String.toList "session.md"] =
      some (.moc (mocFmOf s)) := by
  unfold writeSession
  exact vaultGet_set_same _ _ _

/-- The `version` recorded in a vault file, when the file is a session
MOC. -/
def vfMocVersion : VFile → Option Nat
  | .moc fm => some fm.version
  | _ => none

/-- A minimal version-1 session used to exhibit the C1 overwrite. -/
def demoSession : ResearchSession :=
  { session_id := String.toList "session_demo"
    version := 1
    parent_session_id := none
    query := String.toList "demo query"
    complexity_score := 0
    status := String.toList "completed"
    cost := 0 }

/-- C1 (amended): "continue" and "expand" on a loaded session of
version V build a *new* `ResearchSession` (the loaded value is not
mutated: the constructions are pure) with `version = V + 1`,
`parent_session_id = "<session_id>_v<V>"`, and the same `session_id`
and `query`; but once the fork is saved, the durable version-V record
is *replaced*: `write_session` keys the session MOC by `session_id`
alone, so the MOC at `<session_id>/session.md` now carries version
V + 1. -/
theorem C1_version_fork (s : ResearchSession) (v : Vault) :
    (cmd_continue_new_session s).version = s.version + 1 ∧
    (cmd_expand_new_session s).version = s.version + 1 ∧
    (cmd_continue_new_session s).parent_session_id =
      some (s.session_id ++ String.toList "_v" ++ natStr s.version) ∧
    (cmd_expand_new_session s).parent_session_id =
      some (s.session_id ++ String.toList "_v" ++ natStr s.version) ∧
    (cmd_continue_new_session s).session_id = s.session_id ∧
    (cmd_continue_new_session s).query = s.query ∧
    vaultGet (writeSession (writeSession v s) (cmd_continue_new_session s))
        [s.session_id, String.toList "session.md"] =
      some (.moc (mocFmOf (cmd_continue_new_session s))) ∧
    (mocFmOf (cmd_continue_new_session s)).version = s.version + 1 := by
  refine ⟨rfl, rfl, rfl, rfl, rfl, rfl, ?_, rfl⟩
  exact vaultGet_writeSession_moc (writeSession v s) (cmd_continue_new_session s)

/-- C1 counterexample to "the durable record of version V is unchanged
after the operation is saved": saving the continued (version-2) fork of
`demoSession` overwrites the version-1 record at
`session_demo/session.md`, whose stored version flips from 1 to 2. -/
theorem C1_counterexample :
    (cmd_continue_new_session demoSession).version = 2 ∧
    (cmd_continue_new_session demoSession).parent_session_id =
      some (String.toList "session_demo_v1") ∧
    ((vaultGet (writeSession [] demoSession)
        [String.toList "session_demo", String.toList "session.md"]).bind vfMocVersion) =
      some 1 ∧
    ((vaultGet (writeSession (writeSession [] demoSession)
        (cmd_continue_new_session demoSession))
        [String.toList "session_demo", String.toList "session.md"]).bind vfMocVersion) =
      some 2 := by
  refine ⟨rfl, by decide, by decide, by decide⟩

end DeepResearch
namespace DeepResearch

/-- `pat` occurs as a contiguous substring of `s`. -/
def occursIn (pat s : Str) : Prop := ∃ i, pat <+: s.drop i

theorem prefix_append_cons {pat a b : Str} {c : Char}
    (h : pat <+: a ++ c :: b) (hc : c ∉ pat) : pat <+: a := by
  rcases Nat.lt_or_ge a.length pat.length with hl | hl
  · exfalso
    apply hc
    have he := List.prefix_iff_eq_take.mp h
    rw [he, List.take_append_eq_append_take]
    obtain ⟨m, hm⟩ : ∃ m, pat.length - a.length = m + 1 := ⟨pat.length - a.length - 1, by omega⟩
    rw [hm, List.take_succ_cons]
    exact List.mem_append_right _ (List.mem_cons_self _ _)
  · have he := List.prefix_iff_eq_take.mp h
    rw [List.take_append_eq_append_take, Nat.sub_eq_zero_of_le hl, List.take_zero,
      List.append_nil] at he
    have hp := List.take_prefix pat.length a
    rwa [← he] at hp

theorem occursIn_append_cons {pat a b : Str} {c : Char}
    (h : occursIn pat (a ++ c :: b)) (hpat : pat ≠ []) (hc : c ∉ pat) :
    occursIn pat a ∨ occursIn pat b := by
  obtain ⟨i, hi⟩ := h
  rcases Nat.lt_or_ge i a.length with hlt | hge
  · left
    refine ⟨i, ?_⟩
    rw [List.drop_append_eq_append_drop, Nat.sub_eq_zero_of_le (Nat.le_of_lt hlt),
      List.drop_zero] at hi
    exact prefix_append_cons hi hc
  · rw [List.drop_append_eq_append_drop, List.drop_eq_nil_of_le hge, List.nil_append] at hi
    obtain ⟨m, hm⟩ | hz : (∃ m, i - a.length = m + 1) ∨ i - a.length = 0 := by
      rcases Nat.eq_zero_or_pos (i - a.length) with h0 | h0
      · exact Or.inr h0
      · exact Or.inl ⟨i - a.length - 1, by omega⟩
    · right
      rw [hm, List.drop_succ_cons] at hi
      exact ⟨m, hi⟩
    · exfalso
      rw [hz, List.drop_zero] at hi
      cases pat with
      | nil => exact hpat rfl
      | cons p0 pt =>
        have := (List.cons_prefix_cons.mp hi).1
        exact hc (this ▸ List.mem_cons_self _ _)

theorem count_le_of_occursIn {pat l : Str} (c : Char) (h : occursIn pat l) :
    pat.count c ≤ l.count c := by
  obtain ⟨i, hi⟩ := h
  calc pat.count c ≤ ((l.drop i).count c) := hi.sublist.count_le c
    _ ≤ l.count c := (List.drop_sublist i l).count_le c

theorem interNl_cons_cons (a b : Str) (t : List Str) :
    interNl (a :: b :: t) = a ++ '\n' :: interNl (b :: t) := by
  simp [interNl, List.intersperse]

theorem not_occursIn_nil {pat : Str} (hpat : pat ≠ []) : ¬ occursIn pat [] := by
  intro ⟨i, hi⟩
  rw [List.drop_nil] at hi
  exact hpat (List.prefix_nil.mp hi)

theorem not_occursIn_interNl {pat : Str} (hpat : pat ≠ []) (hnl : '\n' ∉ pat)
    {ls : List Str} (h : ∀ l ∈ ls, ¬ occursIn pat l) : ¬ occursIn pat (interNl ls) := by
  induction ls with
  | nil => exact not_occursIn_nil hpat
  | cons l t ih =>
    cases t with
    | nil =>
      have : interNl [l] = l := by simp [interNl]
      rw [this]
      exact h l (List.mem_cons_self _ _)
    | cons l2 t2 =>
      rw [interNl_cons_cons]
      intro hocc
      rcases occursIn_append_cons hocc hpat hnl with h1 | h2
      · exact h l (List.mem_cons_self _ _) h1
      · exact ih (fun x hx => h x (List.mem_cons_of_mem _ hx)) h2

theorem not_occursIn_marker_of_count {l : Str} (h : l.count '#' < 3) :
    ¬ occursIn iterationMarker l := by
  intro hocc
  have h3 : iterationMarker.count '#' = 3 := by decide
  have := count_le_of_occursIn '#' hocc
  omega

end DeepResearch
namespace DeepResearch

/-- A character that cannot disturb the loader: not `'#'`, not a
newline, not whitespace.  All characters rendered by the numeric
formatters are of this kind. -/
def benignCh (c : Char) : Prop := c ≠ '#' ∧ c ≠ '\n' ∧ isPyWs c = false

instance (c : Char) : Decidable (benignCh c) :=
  inferInstanceAs (Decidable (_ ∧ _ ∧ _))

theorem digitChar10_benign : ∀ d, d < 10 → benignCh (digitChar10 d) := by decide

theorem mem_natStrGo {fuel n : Nat} {c : Char} (h : c ∈ natStrGo fuel n) :
    ∃ d, d < 10 ∧ c = digitChar10 d := by
  induction fuel generalizing n with
  | zero => simp [natStrGo] at h
  | succ f ih =>
    unfold natStrGo at h
    by_cases h10 : n < 10
    · rw [if_pos h10] at h
      have hc : c = digitChar10 n := by simpa using h
      exact ⟨n % 10, Nat.mod_lt _ (by omega), by
        rw [hc]; unfold digitChar10; congr 1; omega⟩
    · rw [if_neg h10] at h
      rcases List.mem_append.mp h with h1 | h2
      · exact ih h1
      · have hc : c = digitChar10 (n % 10) := by simpa using h2
        exact ⟨n % 10, Nat.mod_lt _ (by omega), hc⟩

theorem natStr_benign {n : Nat} {c : Char} (h : c ∈ natStr n) : benignCh c := by
  obtain ⟨d, hd, rfl⟩ := mem_natStrGo h
  exact digitChar10_benign d hd

theorem intStr_benign {i : Int} {c : Char} (h : c ∈ intStr i) : benignCh c := by
  unfold intStr at h
  by_cases hi : i < 0
  · rw [if_pos hi] at h
    rcases List.mem_cons.mp h with rfl | h2
    · exact by decide
    · exact natStr_benign h2
  · rw [if_neg hi] at h
    exact natStr_benign h

theorem padZeros_benign {w : Nat} {s : Str} {c : Char}
    (hs : ∀ x ∈ s, benignCh x) (h : c ∈ padZeros w s) : benignCh c := by
  unfold padZeros at h
  rcases List.mem_append.mp h with h1 | h2
  · have := List.eq_of_mem_replicate h1
    rw [this]
    exact by decide
  · exact hs c h2

theorem pyFormat2_benign {q : ℚ} {c : Char} (h : c ∈ pyFormat2 q) : benignCh c := by
  unfold pyFormat2 at h
  rcases List.mem_append.mp h with h1 | h2
  · exact intStr_benign h1
  · rcases List.mem_cons.mp h2 with rfl | h3
    · exact by decide
    · exact padZeros_benign (fun x hx => natStr_benign hx) h3

theorem pyFormat4_benign {q : ℚ} {c : Char} (h : c ∈ pyFormat4 q) : benignCh c := by
  unfold pyFormat4 at h
  rcases List.mem_append.mp h with h1 | h2
  · exact intStr_benign h1
  · rcases List.mem_cons.mp h2 with rfl | h3
    · exact by decide
    · exact padZeros_benign (fun x hx => natStr_benign hx) h3

theorem natStr_ne_nil (n : Nat) : natStr n ≠ [] := by
  unfold natStr natStrGo
  by_cases h10 : n < 10
  · rw [if_pos h10]
    exact List.cons_ne_nil _ _
  · rw [if_neg h10]
    exact fun h => List.cons_ne_nil _ _ (List.append_eq_nil.mp h).2

end DeepResearch
namespace DeepResearch

theorem splitNl_ne_nil (s : Str) : splitNl s ≠ [] := by
  cases s with
  | nil => simp [splitNl]
  | cons c r =>
    unfold splitNl
    by_cases hc : c = '\n'
    · rw [if_pos hc]
      exact List.cons_ne_nil _ _
    · rw [if_neg hc]
      cases splitNl r with
      | nil => exact List.cons_ne_nil _ _
      | cons a t => exact List.cons_ne_nil _ _

theorem no_nl_of_mem_splitNl {s : Str} : ∀ l ∈ splitNl s, '\n' ∉ l := by
  induction s with
  | nil =>
    intro l hl
    simp [splitNl] at hl
    simp [hl]
  | cons c r ih =>
    intro l hl
    unfold splitNl at hl
    by_cases hc : c = '\n'
    · rw [if_pos hc] at hl
      rcases List.mem_cons.mp hl with rfl | h2
      · simp
      · exact ih l h2
    · rw [if_neg hc] at hl
      cases hr : splitNl r with
      | nil => exact absurd hr (splitNl_ne_nil r)
      | cons seg segs =>
        rw [hr] at hl
        rcases List.mem_cons.mp hl with rfl | h2
        · intro hmem
          rcases List.mem_cons.mp hmem with he | h3
          · exact hc he.symm
          · exact ih seg (hr ▸ List.mem_cons_self _ _) h3
        · exact ih l (hr ▸ List.mem_cons_of_mem _ h2)

theorem mem_of_mem_splitNl {s l : Str} {c : Char} (hl : l ∈ splitNl s) (hc : c ∈ l) :
    c ∈ s := by
  induction s generalizing l with
  | nil =>
    simp [splitNl] at hl
    rw [hl] at hc
    simp at hc
  | cons d r ih =>
    unfold splitNl at hl
    by_cases hd : d = '\n'
    · rw [if_pos hd] at hl
      rcases List.mem_cons.mp hl with rfl | h2
      · simp at hc
      · exact List.mem_cons_of_mem _ (ih h2 hc)
    · rw [if_neg hd] at hl
      cases hr : splitNl r with
      | nil => exact absurd hr (splitNl_ne_nil r)
      | cons seg segs =>
        rw [hr] at hl
        rcases List.mem_cons.mp hl with rfl | h2
        · rcases List.mem_cons.mp hc with rfl | h3
          · exact List.mem_cons_self _ _
          · exact List.mem_cons_of_mem _ (ih (hr ▸ List.mem_cons_self _ _) h3)
        · exact List.mem_cons_of_mem _ (ih (hr ▸ List.mem_cons_of_mem _ h2) hc)

theorem interNl_cons_head (c : Char) (seg : Str) (segs : List Str) :
    interNl ((c :: seg) :: segs) = c :: interNl (seg :: segs) := by
  cases segs with
  | nil => simp [interNl]
  | cons b t =>
    rw [interNl_cons_cons, interNl_cons_cons]
    rfl

theorem interNl_splitNl (s : Str) : interNl (splitNl s) = s := by
  induction s with
  | nil => simp [splitNl, interNl]
  | cons c r ih =>
    unfold splitNl
    by_cases hc : c = '\n'
    · rw [if_pos hc]
      cases hr : splitNl r with
      | nil => exact absurd hr (splitNl_ne_nil r)
      | cons seg segs =>
        rw [interNl_cons_cons, ← hr, ih, hc]
        rfl
    · rw [if_neg hc]
      cases hr : splitNl r with
      | nil => exact absurd hr (splitNl_ne_nil r)
      | cons seg segs =>
        rw [interNl_cons_head, ← hr, ih]

theorem splitNl_single {l : Str} (h : '\n' ∉ l) : splitNl l = [l] := by
  induction l with
  | nil => rfl
  | cons c r ih =>
    have hc : ¬ c = '\n' := fun he => h (he ▸ List.mem_cons_self _ _)
    unfold splitNl
    rw [if_neg hc, ih (fun hm => h (List.mem_cons_of_mem _ hm))]

theorem splitNl_append_cons {l : Str} (h : '\n' ∉ l) (rest : Str) :
    splitNl (l ++ '\n' :: rest) = l :: splitNl rest := by
  induction l with
  | nil =>
    show splitNl ('\n' :: rest) = [] :: splitNl rest
    simp [splitNl]
  | cons c lr ih =>
    have hc : ¬ c = '\n' := fun he => h (he ▸ List.mem_cons_self _ _)
    show splitNl (c :: (lr ++ '\n' :: rest)) = (c :: lr) :: splitNl rest
    have ih2 := ih (fun hm => h (List.mem_cons_of_mem _ hm))
    simp only [splitNl, if_neg hc, ih2]

theorem splitNl_interNl {ls : List Str} (hne : ls ≠ []) (h : ∀ l ∈ ls, '\n' ∉ l) :
    splitNl (interNl ls) = ls := by
  induction ls with
  | nil => exact absurd rfl hne
  | cons l t ih =>
    cases t with
    | nil =>
      have h1 : interNl [l] = l := by simp [interNl]
      rw [h1, splitNl_single (h l (List.mem_cons_self _ _))]
    | cons l2 t2 =>
      rw [interNl_cons_cons, splitNl_append_cons (h l (List.mem_cons_self _ _)),
        ih (List.cons_ne_nil _ _) (fun x hx => h x (List.mem_cons_of_mem _ hx))]

theorem joinNl_eq_interNl {ls : List Str} (hne : ls ≠ []) :
    joinNl ls = interNl ls ++ ['\n'] := by
  induction ls with
  | nil => exact absurd rfl hne
  | cons l t ih =>
    cases t with
    | nil => simp [joinNl, interNl]
    | cons l2 t2 =>
      rw [show joinNl (l :: l2 :: t2) = (l ++ ['\n']) ++ joinNl (l2 :: t2) from rfl,
        ih (List.cons_ne_nil _ _), interNl_cons_cons]
      simp [List.append_assoc]

theorem interNl_append_last {xs : List Str} (hne : xs ≠ []) (l : Str) :
    interNl (xs ++ [l]) = interNl xs ++ '\n' :: l := by
  induction xs with
  | nil => exact absurd rfl hne
  | cons a t ih =>
    cases t with
    | nil => simp [interNl_cons_cons, interNl]
    | cons b t2 =>
      rw [List.cons_append, List.cons_append, interNl_cons_cons, ← List.cons_append,
        ih (List.cons_ne_nil _ _), interNl_cons_cons]
      simp [List.append_assoc]

theorem pyStripLeft_cons_ws {c : Char} (hc : isPyWs c = true) (s : Str) :
    pyStripLeft (c :: s) = pyStripLeft s := by
  unfold pyStripLeft
  exact dropWhile_cons_true hc s

theorem pyStripRight_append_ws {c : Char} (hc : isPyWs c = true) (s : Str) :
    pyStripRight (s ++ [c]) = pyStripRight s := by
  unfold pyStripRight
  simp only [List.reverse_append, List.reverse_cons, List.reverse_nil, List.nil_append,
    List.singleton_append]
  rw [dropWhile_cons_true hc]

theorem pyStrip_cons_ws {c : Char} (hc : isPyWs c = true) (s : Str) :
    pyStrip (c :: s) = pyStrip s := by
  unfold pyStrip
  rw [pyStripLeft_cons_ws hc]

theorem pyStrip_append_ws {c : Char} (hc : isPyWs c = true) (s : Str) :
    pyStrip (s ++ [c]) = pyStrip s := by
  unfold pyStrip
  unfold pyStripLeft
  rw [List.dropWhile_append]
  by_cases he : (s.dropWhile isPyWs).isEmpty = true
  · rw [if_pos he]
    have h1 : List.dropWhile isPyWs [c] = [] := by
      rw [dropWhile_cons_true hc]
      rfl
    rw [h1, List.isEmpty_iff.mp he]
  · rw [if_neg he]
    exact pyStripRight_append_ws hc _

end DeepResearch
namespace DeepResearch

theorem occursIn_of_cons {pat : Str} {c : Char} {t : Str} (h : occursIn pat t) :
    occursIn pat (c :: t) := by
  obtain ⟨i, hi⟩ := h
  exact ⟨i + 1, by simpa using hi⟩

theorem splitSeqGo_no_match {p : Char} {ps : Str} {fuel : Nat} {s acc : Str}
    (hf : s.length ≤ fuel) (h : ¬ occursIn (p :: ps) s) :
    splitSeqGo p ps fuel s acc = [acc.reverse ++ s] := by
  induction fuel generalizing s acc with
  | zero =>
    cases s with
    | nil => simp [splitSeqGo]
    | cons c r => simp at hf
  | succ f ih =>
    cases s with
    | nil => simp [splitSeqGo]
    | cons c r =>
      have hpre : (p :: ps).isPrefixOf (c :: r) = false := by
        rw [Bool.eq_false_iff]
        intro hp
        exact h ⟨0, by simpa using List.isPrefixOf_iff_prefix.mp hp⟩
      have hr : ¬ occursIn (p :: ps) r := fun ho => h (occursIn_of_cons ho)
      unfold splitSeqGo
      simp only [hpre, Bool.false_eq_true, if_false]
      rw [ih (by simpa using hf) hr]
      simp

theorem pySplitSeq_no_occurrence {pat s : Str} (hpat : pat ≠ [])
    (h : ¬ occursIn pat s) : pySplitSeq pat s = [s] := by
  cases pat with
  | nil => exact absurd rfl hpat
  | cons p ps =>
    show splitSeqGo p ps s.length s [] = [s]
    rw [splitSeqGo_no_match (Nat.le_refl _) h]
    simp

theorem loaderParseTrace_no_marker {body : Str}
    (h : ¬ occursIn iterationMarker body) : loaderParseTrace body = .ok [] := by
  unfold loaderParseTrace
  rw [pySplitSeq_no_occurrence (by decide) h]
  rfl

theorem splitSectionsStep_plain {l : Str} (st : SectState)
    (h : (String.toList "## ").isPrefixOf l = false) :
    splitSectionsStep st l = { st with curLines := st.curLines ++ [l] } := by
  unfold splitSectionsStep
  simp only [h, Bool.false_eq_true, if_false]

theorem splitSectionsStep_header {l : Str} (st : SectState)
    (h : (String.toList "## ").isPrefixOf l = true) :
    splitSectionsStep st l =
      { current := some (pyStrip (l.drop 3))
        curLines := []
        sections := splitSectionsSave st } := by
  unfold splitSectionsStep
  simp only [h, if_true]

theorem foldl_splitSectionsStep_plain {ls : List Str} (st : SectState)
    (h : ∀ l ∈ ls, (String.toList "## ").isPrefixOf l = false) :
    ls.foldl splitSectionsStep st = { st with curLines := st.curLines ++ ls } := by
  induction ls generalizing st with
  | nil => simp
  | cons l t ih =>
    rw [List.foldl_cons, splitSectionsStep_plain st (h l (List.mem_cons_self _ _)),
      ih _ (fun x hx => h x (List.mem_cons_of_mem _ hx))]
    simp

theorem isPrefixOf_eq_false_of_not_mem {pat l : Str} {c : Char} (hc : c ∈ pat)
    (hl : c ∉ l) : pat.isPrefixOf l = false := by
  rw [Bool.eq_false_iff]
  intro h
  exact hl ((List.isPrefixOf_iff_prefix.mp h).sublist.subset hc)

theorem pyStrip_wrap_nl (s : Str) : pyStrip ('\n' :: (s ++ ['\n'])) = pyStrip s := by
  rw [pyStrip_cons_ws (by decide), pyStrip_append_ws (by decide)]

end DeepResearch
namespace DeepResearch

theorem natStr_no_hash (n : Nat) : (natStr n).count '#' = 0 :=
  List.count_eq_zero.mpr (fun hm => (natStr_benign hm).1 rfl)

theorem natStr_no_nl (n : Nat) : '\n' ∉ natStr n :=
  fun hm => (natStr_benign hm).2.1 rfl

theorem pyFormat2_no_hash (q : ℚ) : (pyFormat2 q).count '#' = 0 :=
  List.count_eq_zero.mpr (fun hm => (pyFormat2_benign hm).1 rfl)

theorem pyFormat2_no_nl (q : ℚ) : '\n' ∉ pyFormat2 q :=
  fun hm => (pyFormat2_benign hm).2.1 rfl

theorem pyFormat4_no_hash (q : ℚ) : (pyFormat4 q).count '#' = 0 :=
  List.count_eq_zero.mpr (fun hm => (pyFormat4_benign hm).1 rfl)

theorem pyFormat4_no_nl (q : ℚ) : '\n' ∉ pyFormat4 q :=
  fun hm => (pyFormat4_benign hm).2.1 rfl

theorem line_benign_concat {a x : Str} (ha_nl : '\n' ∉ a) (ha_ct : a.count '#' ≤ 2)
    (hx_ct : x.count '#' = 0) (hx_nl : '\n' ∉ x) :
    '\n' ∉ a ++ x ∧ (a ++ x).count '#' ≤ 2 := by
  constructor
  · intro hm
    rcases List.mem_append.mp hm with h | h
    · exact ha_nl h
    · exact hx_nl h
  · rw [List.count_append, hx_ct]
    omega

theorem splitNl_line_benign {s l : Str} (hs : s.count '#' = 0) (hl : l ∈ splitNl s) :
    '\n' ∉ l ∧ l.count '#' ≤ 2 := by
  refine ⟨no_nl_of_mem_splitNl l hl, ?_⟩
  have : l.count '#' = 0 := List.count_eq_zero.mpr
    (fun hm => List.count_eq_zero.mp hs (mem_of_mem_splitNl hl hm))
  omega

theorem renderWorkerLines_benign (w : WorkerFullContext)
    (hrw : w.react_iterations = [])
    (hobj : w.objective.count '#' = 0) (hobjn : '\n' ∉ w.objective)
    (hst : w.status.count '#' = 0) (hstn : '\n' ∉ w.status)
    (htid : w.task_id.count '#' = 0) (htidn : '\n' ∉ w.task_id)
    (hwid : w.worker_id.count '#' = 0) (hwidn : '\n' ∉ w.worker_id)
    (hfo : w.final_output.count '#' = 0)
    (hcs : w.compressed_summary.count '#' = 0) :
    ∀ l ∈ renderWorkerBodyLines w, '\n' ∉ l ∧ l.count '#' ≤ 2 := by
  intro l hl
  rw [renderWorkerBodyLines, hrw] at hl
  rcases List.mem_append.mp hl with hl | hl
  rcases List.mem_append.mp hl with hl | hl
  rcases List.mem_append.mp hl with hl | hl
  rcases List.mem_append.mp hl with hl | hl
  rcases List.mem_append.mp hl with hl | hl
  rcases List.mem_append.mp hl with hl | hl
  -- first block of seven literal lines
  · rcases List.mem_cons.mp hl with rfl | hl
    · exact line_benign_concat (by decide) (by decide) hobj hobjn
    rcases List.mem_cons.mp hl with rfl | hl
    · exact ⟨by decide, by decide⟩
    rcases List.mem_cons.mp hl with rfl | hl
    · exact ⟨by decide, by decide⟩
    rcases List.mem_cons.mp hl with rfl | hl
    · exact line_benign_concat (by decide) (by decide) hobj hobjn
    rcases List.mem_cons.mp hl with rfl | hl
    · exact ⟨by decide, by decide⟩
    rcases List.mem_cons.mp hl with rfl | hl
    · exact ⟨by decide, by decide⟩
    rcases List.mem_cons.mp hl with rfl | hl
    · exact ⟨by decide, by decide⟩
    exact absurd hl (List.not_mem_nil _)
  -- the (empty) react trace splice
  · have hsp : splitNl (interNl (renderReactEntries [])) = [[]] := rfl
    rw [hsp] at hl
    rcases List.mem_cons.mp hl with rfl | hl
    · exact ⟨by decide, by decide⟩
    exact absurd hl (List.not_mem_nil _)
  -- the Final Output header block
  · rcases List.mem_cons.mp hl with rfl | hl
    · exact ⟨by decide, by decide⟩
    rcases List.mem_cons.mp hl with rfl | hl
    · exact ⟨by decide, by decide⟩
    rcases List.mem_cons.mp hl with rfl | hl
    · exact ⟨by decide, by decide⟩
    exact absurd hl (List.not_mem_nil _)
  -- the final output body
  · exact splitNl_line_benign hfo hl
  -- the Compressed Summary header block
  · rcases List.mem_cons.mp hl with rfl | hl
    · exact ⟨by decide, by decide⟩
    rcases List.mem_cons.mp hl with rfl | hl
    · exact ⟨by decide, by decide⟩
    rcases List.mem_cons.mp hl with rfl | hl
    · exact ⟨by decide, by decide⟩
    rcases List.mem_cons.mp hl with rfl | hl
    · exact ⟨by decide, by decide⟩
    rcases List.mem_cons.mp hl with rfl | hl
    · exact ⟨by decide, by decide⟩
    exact absurd hl (List.not_mem_nil _)
  -- the compressed summary body
  · exact splitNl_line_benign hcs hl
  -- the Metadata block
  · rcases List.mem_cons.mp hl with rfl | hl
    · exact ⟨by decide, by decide⟩
    rcases List.mem_cons.mp hl with rfl | hl
    · exact ⟨by decide, by decide⟩
    rcases List.mem_cons.mp hl with rfl | hl
    · exact ⟨by decide, by decide⟩
    rcases List.mem_cons.mp hl with rfl | hl
    · refine line_benign_concat ?_ ?_ (by decide) (by decide)
      · intro hm
        rcases List.mem_append.mp hm with hm | hm
        · exact absurd hm (by decide)
        rcases List.mem_cons.mp hm with he | hm
        · exact absurd he (by decide)
        · exact htidn hm
      · rw [List.count_append, List.count_cons, htid]
        decide
    rcases List.mem_cons.mp hl with rfl | hl
    · refine line_benign_concat ?_ ?_ (by decide) (by decide)
      · intro hm
        rcases List.mem_append.mp hm with hm | hm
        · exact absurd hm (by decide)
        rcases List.mem_cons.mp hm with he | hm
        · exact absurd he (by decide)
        · exact hwidn hm
      · rw [List.count_append, List.count_cons, hwid]
        decide
    rcases List.mem_cons.mp hl with rfl | hl
    · exact line_benign_concat (by decide) (by decide) hst hstn
    rcases List.mem_cons.mp hl with rfl | hl
    · refine line_benign_concat ?_ ?_ (by decide) (by decide)
      · exact (line_benign_concat (by decide) (by decide) (pyFormat2_no_hash _)
          (pyFormat2_no_nl _)).1
      · exact (line_benign_concat (by decide) (by decide) (pyFormat2_no_hash _)
          (pyFormat2_no_nl _)).2
    rcases List.mem_cons.mp hl with rfl | hl
    · exact line_benign_concat (by decide) (by decide) (natStr_no_hash _) (natStr_no_nl _)
    rcases List.mem_cons.mp hl with rfl | hl
    · exact line_benign_concat (by decide) (by decide) (pyFormat4_no_hash _) (pyFormat4_no_nl _)
    rcases List.mem_cons.mp hl with rfl | hl
    · exact line_benign_concat (by decide) (by decide) (natStr_no_hash _) (natStr_no_nl _)
    exact absurd hl (List.not_mem_nil _)

end DeepResearch
namespace DeepResearch

theorem getLast?_append_ne {α : Type} {l r : List α} (hr : r ≠ []) :
    (l ++ r).getLast? = r.getLast? := by
  rcases List.eq_nil_or_concat r with rfl | ⟨q, a, rfl⟩
  · exact absurd rfl hr
  · simp only [List.concat_eq_append]
    rw [← List.append_assoc, List.getLast?_concat, List.getLast?_concat]

theorem getLast?_cons_ne {α : Type} {a : α} {l : List α} (hl : l ≠ []) :
    (a :: l).getLast? = l.getLast? := by
  have h := getLast?_append_ne (l := [a]) hl
  simpa using h

theorem mem_of_getLast? {α : Type} {l : List α} {a : α} (h : l.getLast? = some a) :
    a ∈ l := by
  rcases List.eq_nil_or_concat l with rfl | ⟨q, b, rfl⟩
  · simp at h
  · simp only [List.concat_eq_append] at h ⊢
    rw [List.getLast?_concat] at h
    exact List.mem_append_right _ (by simp [Option.some.inj h])

theorem getLast?_interNl {ls : List Str} {l : Str} (h : ls.getLast? = some l)
    (hl : l ≠ []) : (interNl ls).getLast? = l.getLast? := by
  rcases List.eq_nil_or_concat ls with rfl | ⟨q, a, rfl⟩
  · simp at h
  · simp only [List.concat_eq_append] at h ⊢
    rw [List.getLast?_concat] at h
    obtain rfl : a = l := Option.some.inj h
    cases q with
    | nil => simp [interNl]
    | cons b t =>
      rw [interNl_append_last (List.cons_ne_nil _ _), getLast?_append_ne
        (List.cons_ne_nil _ _), getLast?_cons_ne hl]

theorem renderWorker_no_marker (w : WorkerFullContext)
    (benign : ∀ l ∈ renderWorkerBodyLines w, '\n' ∉ l ∧ l.count '#' ≤ 2) :
    ¬ occursIn iterationMarker (interNl (renderWorkerBodyLines w)) :=
  not_occursIn_interNl (by decide) (by decide)
    (fun l hl => not_occursIn_marker_of_count (by
      have h2 := (benign l hl).2
      omega))

theorem renderWorkerLines_getLast (w : WorkerFullContext) :
    (renderWorkerBodyLines w).getLast? =
      some (String.toList "- **Sources**: " ++ natStr w.sources.length) := by
  rw [renderWorkerBodyLines, getLast?_append_ne (List.cons_ne_nil _ _)]
  rfl

theorem sourcesLine_ne_nil (w : WorkerFullContext) :
    String.toList "- **Sources**: " ++ natStr w.sources.length ≠ [] := by
  intro h
  exact absurd (List.append_eq_nil.mp h).1 (by decide)

theorem renderWorker_strip (w : WorkerFullContext) :
    pyStrip (renderWorkerBody w) = interNl (renderWorkerBodyLines w) := by
  obtain ⟨x, rest, hshape⟩ : ∃ x rest,
      renderWorkerBodyLines w = ('#' :: x) :: rest := ⟨_, _, rfl⟩
  have hne : renderWorkerBodyLines w ≠ [] := by
    rw [hshape]
    exact List.cons_ne_nil _ _
  have hbody : renderWorkerBody w = interNl (renderWorkerBodyLines w) ++ ['\n'] := by
    rw [renderWorkerBody, joinNl_eq_interNl hne]
  rw [hbody, pyStrip_append_ws (by decide)]
  apply pyStrip_eq_self
  · intro c hc
    rw [hshape, interNl_cons_head] at hc
    rw [show ('#' :: interNl (x :: rest)).head? = some '#' from rfl] at hc
    obtain rfl : '#' = c := Option.some.inj hc
    decide
  · intro c hc
    obtain ⟨q, a, hqa⟩ : ∃ q a, natStr w.sources.length = q ++ [a] := by
      rcases List.eq_nil_or_concat (natStr w.sources.length) with h | h
      · exact absurd h (natStr_ne_nil _)
      · simpa only [List.concat_eq_append] using h
    rw [getLast?_interNl (renderWorkerLines_getLast w) (sourcesLine_ne_nil w), hqa,
      ← List.append_assoc, List.getLast?_concat] at hc
    have hac : a = c := Option.some.inj hc
    have hmem : c ∈ natStr w.sources.length := by
      rw [hqa, ← hac]
      exact List.mem_append_right _ (List.mem_singleton.mpr rfl)
    exact (natStr_benign hmem).2.2

end DeepResearch
namespace DeepResearch

theorem foldl_section_block {hdr : Str} {ls : List Str} (st : SectState)
    (hh : (String.toList "## ").isPrefixOf hdr = true)
    (hp : ∀ l ∈ ls, (String.toList "## ").isPrefixOf l = false) :
    (hdr :: ls).foldl splitSectionsStep st =
      { current := some (pyStrip (hdr.drop 3))
        curLines := ls
        sections := splitSectionsSave st } := by
  rw [List.foldl_cons, splitSectionsStep_header st hh, foldl_splitSectionsStep_plain _ hp]
  simp

theorem dictGet_fourKeys (x v c m : Str) :
    dictGet (dictInsert (dictInsert (dictInsert (dictInsert []
        (pyStrip ((String.toList "## Research Process (ReAct Loop)").drop 3)) x)
        (pyStrip ((String.toList "## Final Output").drop 3)) v)
        (pyStrip ((String.toList "## Compressed Summary").drop 3)) c)
        (pyStrip ((String.toList "## Metadata").drop 3)) m)
      (String.toList "Final Output") = some v := by
  have e1 : pyStrip ((String.toList "## Research Process (ReAct Loop)").drop 3) =
      String.toList "Research Process (ReAct Loop)" := by decide
  have e2 : pyStrip ((String.toList "## Final Output").drop 3) =
      String.toList "Final Output" := by decide
  have e3 : pyStrip ((String.toList "## Compressed Summary").drop 3) =
      String.toList "Compressed Summary" := by decide
  have e4 : pyStrip ((String.toList "## Metadata").drop 3) =
      String.toList "Metadata" := by decide
  rw [e1, e2, e3, e4]
  simp +decide [dictInsert, dictGet, List.find?]

theorem interNl_wrap (s : Str) :
    pyStrip (interNl ([[]] ++ splitNl s ++ [[]])) = pyStrip s := by
  obtain ⟨f0, ft, hF⟩ : ∃ f0 ft, splitNl s = f0 :: ft := by
    cases h : splitNl s with
    | nil => exact absurd h (splitNl_ne_nil s)
    | cons a t => exact ⟨a, t, rfl⟩
  rw [hF]
  rw [show ([[]] ++ (f0 :: ft) ++ [[]] : List Str) = [] :: ((f0 :: ft) ++ [[]]) from rfl]
  rw [show (([] : Str) :: ((f0 :: ft) ++ [[]])) = [] :: f0 :: (ft ++ [[]]) from rfl]
  rw [interNl_cons_cons]
  rw [show (f0 :: (ft ++ [[]]) : List Str) = (f0 :: ft) ++ [[]] from rfl]
  rw [interNl_append_last (List.cons_ne_nil _ _), ← hF, interNl_splitNl]
  simp only [List.nil_append]
  exact pyStrip_wrap_nl s

end DeepResearch
namespace DeepResearch

theorem splitSections_renderWorker (w : WorkerFullContext)
    (hrw : w.react_iterations = [])
    (benign : ∀ l ∈ renderWorkerBodyLines w, '\n' ∉ l ∧ l.count '#' ≤ 2)
    (hfo : w.final_output.count '#' = 0)
    (hcs : w.compressed_summary.count '#' = 0) :
    dictGet (splitSections (interNl (renderWorkerBodyLines w)))
      (String.toList "Final Output") = some (pyStrip w.final_output) := by
  have hne : renderWorkerBodyLines w ≠ [] := by
    obtain ⟨x, rest, hshape⟩ : ∃ x rest, renderWorkerBodyLines w = ('#' :: x) :: rest :=
      ⟨_, _, rfl⟩
    rw [hshape]
    exact List.cons_ne_nil _ _
  have hsplit : splitNl (interNl (renderWorkerBodyLines w)) = renderWorkerBodyLines w :=
    splitNl_interNl hne (fun l hl => (benign l hl).1)
  have hpFO : ∀ l ∈ splitNl w.final_output, (String.toList "## ").isPrefixOf l = false :=
    fun l hl => isPrefixOf_eq_false_of_not_mem (by decide)
      (fun hm => List.count_eq_zero.mp hfo (mem_of_mem_splitNl hl hm))
  have hpCS : ∀ l ∈ splitNl w.compressed_summary,
      (String.toList "## ").isPrefixOf l = false :=
    fun l hl => isPrefixOf_eq_false_of_not_mem (by decide)
      (fun hm => List.count_eq_zero.mp hcs (mem_of_mem_splitNl hl hm))
  have hp_nil : ∀ l ∈ ([[]] : List Str), (String.toList "## ").isPrefixOf l = false := by
    intro l hl
    rcases List.mem_cons.mp hl with rfl | hl
    · rfl
    · exact absurd hl (List.not_mem_nil _)
  have hp_cs_blk : ∀ l ∈ ([[],
      String.toList "*This is what gets passed to the synthesis step:*", []] : List Str),
      (String.toList "## ").isPrefixOf l = false := by
    intro l hl
    rcases List.mem_cons.mp hl with rfl | hl
    · rfl
    rcases List.mem_cons.mp hl with rfl | hl
    · rfl
    rcases List.mem_cons.mp hl with rfl | hl
    · rfl
    exact absurd hl (List.not_mem_nil _)
  have hp_md : ∀ l ∈ ([[],
      String.toList "- **Task ID**: " ++ backtick :: w.task_id ++ [backtick],
      String.toList "- **Worker ID**: " ++ backtick :: w.worker_id ++ [backtick],
      String.toList "- **Status**: " ++ w.status,
      String.toList "- **Duration**: " ++ pyFormat2 w.duration_seconds ++ ['s'],
      String.toList "- **Tool Calls**: " ++ natStr w.tool_calls.length,
      String.toList "- **Cost**: $" ++ pyFormat4 w.cost,
      String.toList "- **Sources**: " ++ natStr w.sources.length] : List Str),
      (String.toList "## ").isPrefixOf l = false := by
    intro l hl
    rcases List.mem_cons.mp hl with rfl | hl
    · rfl
    rcases List.mem_cons.mp hl with rfl | hl
    · rfl
    rcases List.mem_cons.mp hl with rfl | hl
    · rfl
    rcases List.mem_cons.mp hl with rfl | hl
    · rfl
    rcases List.mem_cons.mp hl with rfl | hl
    · rfl
    rcases List.mem_cons.mp hl with rfl | hl
    · rfl
    rcases List.mem_cons.mp hl with rfl | hl
    · rfl
    rcases List.mem_cons.mp hl with rfl | hl
    · rfl
    exact absurd hl (List.not_mem_nil _)
  unfold splitSections
  rw [hsplit, renderWorkerBodyLines, hrw]
  rw [show splitNl (interNl (renderReactEntries [])) = [[]] from rfl]
  rw [List.foldl_append, List.foldl_append, List.foldl_append, List.foldl_append,
    List.foldl_append, List.foldl_append]
  rw [List.foldl_cons, splitSectionsStep_plain _
    (show (String.toList "## ").isPrefixOf ([] : Str) = false from rfl)]
  rw [foldl_section_block _
    (show (String.toList "## ").isPrefixOf
      (String.toList "## Metadata") = true from rfl) hp_md]
  rw [foldl_splitSectionsStep_plain _ hpCS]
  rw [List.foldl_cons, splitSectionsStep_plain _
    (show (String.toList "## ").isPrefixOf ([] : Str) = false from rfl)]
  rw [foldl_section_block _
    (show (String.toList "## ").isPrefixOf
      (String.toList "## Compressed Summary") = true from rfl) hp_cs_blk]
  rw [foldl_splitSectionsStep_plain _ hpFO]
  rw [List.foldl_cons, splitSectionsStep_plain _
    (show (String.toList "## ").isPrefixOf ([] : Str) = false from rfl)]
  rw [foldl_section_block _
    (show (String.toList "## ").isPrefixOf
      (String.toList "## Final Output") = true from rfl) hp_nil]
  rw [foldl_splitSectionsStep_plain _ hp_nil]
  rw [List.foldl_cons, splitSectionsStep_plain _
    (show (String.toList "## ").isPrefixOf
      (String.toList "# Worker: " ++ w.objective) = false from rfl)]
  rw [List.foldl_cons, splitSectionsStep_plain _
    (show (String.toList "## ").isPrefixOf ([] : Str) = false from rfl)]
  rw [List.foldl_cons, splitSectionsStep_plain _
    (show (String.toList "## ").isPrefixOf
      (String.toList "**Session**: [[../session|Session]]") = false from rfl)]
  rw [List.foldl_cons, splitSectionsStep_plain _
    (show (String.toList "## ").isPrefixOf
      (String.toList "**Objective**: " ++ w.objective) = false from rfl)]
  rw [List.foldl_cons, splitSectionsStep_plain _
    (show (String.toList "## ").isPrefixOf ([] : Str) = false from rfl)]
  rw [foldl_section_block _
    (show (String.toList "## ").isPrefixOf
      (String.toList "## Research Process (ReAct Loop)") = true from rfl) hp_nil]
  dsimp only [splitSectionsSave]
  rw [interNl_wrap]
  exact dictGet_fourKeys _ _ _ _

end DeepResearch
namespace DeepResearch

theorem loadWorker_render (sid : Str) (w : WorkerFullContext)
    (hrw : w.react_iterations = [])
    (hobj : w.objective.count '#' = 0) (hobjn : '\n' ∉ w.objective)
    (hst : w.status.count '#' = 0) (hstn : '\n' ∉ w.status)
    (htidh : w.task_id.count '#' = 0) (htidn : '\n' ∉ w.task_id)
    (hwid : w.worker_id.count '#' = 0) (hwidn : '\n' ∉ w.worker_id)
    (hfo : w.final_output.count '#' = 0)
    (hcs : w.compressed_summary.count '#' = 0)
    (hfos : pyStrip w.final_output = w.final_output) :
    ∃ lw, loadWorkerFromFile (workerFmOf sid w) (renderWorkerBody w) = .ok lw ∧
      lw.task_id = w.task_id ∧ lw.worker_id = w.worker_id ∧
      lw.objective = w.objective ∧ lw.status = w.status ∧
      lw.final_output = w.final_output ∧ lw.sources = [] := by
  have benign := renderWorkerLines_benign w hrw hobj hobjn hst hstn htidh htidn hwid
    hwidn hfo hcs
  have hparse : loaderParseTrace (pyStrip (renderWorkerBody w)) = .ok [] := by
    rw [renderWorker_strip]
    exact loaderParseTrace_no_marker (renderWorker_no_marker w benign)
  have hsect := splitSections_renderWorker w hrw benign hfo hcs
  have hload : loadWorkerFromFile (workerFmOf sid w) (renderWorkerBody w) =
      .ok { task_id := w.task_id
            worker_id := w.worker_id
            objective := w.objective
            tools_available := []
            expected_output := []
            react_iterations := []
            tool_calls := []
            final_output := pyStrip ((dictGet
              (splitSections (pyStrip (renderWorkerBody w)))
              (String.toList "Final Output")).getD [])
            compressed_summary := pyStrip ((dictGet
              (splitSections (pyStrip (renderWorkerBody w)))
              (String.toList "Compressed Summary")).getD [])
            sources := []
            status := w.status
            started_at := w.started_at
            completed_at := w.completed_at
            duration_seconds := w.duration_seconds
            cost := w.cost
            model := [] } := by
    simp only [loadWorkerFromFile]
    rw [hparse]
    rfl
  rw [renderWorker_strip, hsect] at hload
  simp only [Option.getD_some] at hload
  rw [hfos, hfos] at hload
  exact ⟨_, hload, rfl, rfl, rfl, rfl, rfl, rfl⟩

end DeepResearch
namespace DeepResearch

/-- C2 (amended): for a benign single-worker session (worker ids and
status free of `'#'` and newlines, stripped final output, `task_`-prefixed
task id, and an empty ReAct trace), saving to a fresh vault and loading
back reproduces `session_id`, `version`, `parent_session_id`, `query` and
`cost` exactly, and the worker's `objective`, `status` and `final_output`;
the worker's `sources`, however, are *not* reproduced: the loader rebuilds
them from the parsed trace tool calls (whose URL arguments the trace
parser discards), so they come back empty. -/
theorem C2_roundtrip (s : ResearchSession) (w : WorkerFullContext)
    (hw : s.workers = [w])
    (hrw : w.react_iterations = [])
    (htid : (String.toList "task_").isPrefixOf w.task_id = true)
    (hobj : w.objective.count '#' = 0) (hobjn : '\n' ∉ w.objective)
    (hst : w.status.count '#' = 0) (hstn : '\n' ∉ w.status)
    (htidh : w.task_id.count '#' = 0) (htidn : '\n' ∉ w.task_id)
    (hwid : w.worker_id.count '#' = 0) (hwidn : '\n' ∉ w.worker_id)
    (hfo : w.final_output.count '#' = 0)
    (hcs : w.compressed_summary.count '#' = 0)
    (hfos : pyStrip w.final_output = w.final_output) :
    ∃ loaded, loadSession (writeSession [] s) s.session_id s.version = .ok loaded ∧
      loaded.session_id = s.session_id ∧ loaded.version = s.version ∧
      loaded.parent_session_id = s.parent_session_id ∧ loaded.query = s.query ∧
      loaded.cost = s.cost ∧
      ∃ lw, loaded.workers = [lw] ∧ lw.task_id = w.task_id ∧
        lw.worker_id = w.worker_id ∧ lw.objective = w.objective ∧
        lw.status = w.status ∧ lw.final_output = w.final_output ∧
        lw.sources = [] := by
  obtain ⟨lw, hok, hp1, hp2, hp3, hp4, hp5, hp6⟩ := loadWorker_render s.session_id w hrw
    hobj hobjn hst hstn htidh htidn hwid hwidn hfo hcs hfos
  have hwr : (([s.session_id, String.toList "workers",
      w.task_id ++ String.toList "_worker.md"] : List Str) ==
      [s.session_id, String.toList "reports",
        String.toList "report_v" ++ natStr s.version ++ String.toList ".md"]) = false := by
    rw [beq_eq_false_iff_ne]
    intro h
    injection h with h1 h'
    injection h' with h2 h''
    exact absurd h2 (by decide)
  have hrm : (([s.session_id, String.toList "reports",
      String.toList "report_v" ++ natStr s.version ++ String.toList ".md"] : List Str) ==
      [s.session_id, String.toList "session.md"]) = false := by
    rw [beq_eq_false_iff_ne]
    intro h
    injection h with h1 h'
    injection h' with h2 h''
    exact absurd h2 (by decide)
  have hwm : (([s.session_id, String.toList "workers",
      w.task_id ++ String.toList "_worker.md"] : List Str) ==
      [s.session_id, String.toList "session.md"]) = false := by
    rw [beq_eq_false_iff_ne]
    intro h
    injection h with h1 h'
    injection h' with h2 h''
    exact absurd h2 (by decide)
  have hglob : globWorkerMatch (w.task_id ++ String.toList "_worker.md") = true := by
    unfold globWorkerMatch
    have h1 : (String.toList "task_").isPrefixOf
        (w.task_id ++ String.toList "_worker.md") = true :=
      List.isPrefixOf_iff_prefix.mpr
        ((List.isPrefixOf_iff_prefix.mp htid).trans (List.prefix_append _ _))
    have h2 : (String.toList "_worker.md").isSuffixOf
        (w.task_id ++ String.toList "_worker.md") = true :=
      List.isSuffixOf_iff_suffix.mpr (List.suffix_append _ _)
    have h5 : 5 ≤ w.task_id.length := by
      have hle := (List.isPrefixOf_iff_prefix.mp htid).length_le
      simpa using hle
    have h3 : decide (15 ≤ (w.task_id ++ String.toList "_worker.md").length) = true := by
      apply decide_eq_true
      rw [List.length_append]
      have h10 : (String.toList "_worker.md").length = 10 := by decide
      omega
    rw [h1, h2, h3]
    rfl
  have hvault : writeSession [] s =
      [([s.session_id, String.toList "session.md"], .moc (mocFmOf s)),
       ([s.session_id, String.toList "reports",
          String.toList "report_v" ++ natStr s.version ++ String.toList ".md"],
        .reportNote (joinNl (renderReportBodyLines s))),
       ([s.session_id, String.toList "workers",
          w.task_id ++ String.toList "_worker.md"],
        .workerNote (workerFmOf s.session_id w) (renderWorkerBody w))] := by
    simp only [writeSession, hw, List.foldl_cons, List.foldl_nil, vaultSet]
    simp [List.filter_cons, hwr, hrm, hwm]
  have hcollect : collectWorkerFiles (writeSession [] s) s.session_id =
      [(w.task_id ++ String.toList "_worker.md", workerFmOf s.session_id w,
        renderWorkerBody w)] := by
    rw [hvault]
    simp only [collectWorkerFiles, List.filterMap_cons, List.filterMap_nil]
    have hglob2 : globWorkerMatch (w.task_id ++
        ['_', 'w', 'o', 'r', 'k', 'e', 'r', '.', 'm', 'd']) = true := hglob
    simp [hglob2]
  have hlw : loadWorkers (writeSession [] s) s.session_id = .ok [lw] := by
    unfold loadWorkers
    rw [hcollect]
    rw [show List.insertionSort (fun a b => strLeB a.1 b.1 = true)
        [(w.task_id ++ String.toList "_worker.md", workerFmOf s.session_id w,
          renderWorkerBody w)] =
        [(w.task_id ++ String.toList "_worker.md", workerFmOf s.session_id w,
          renderWorkerBody w)] from rfl]
    simp only [List.mapM, List.mapM.loop, hok]
    rfl
  unfold loadSession
  rw [vaultGet_writeSession_moc, hlw]
  exact ⟨_, rfl, rfl, rfl, rfl, rfl, rfl, lw, rfl, hp1, hp2, hp3, hp4, hp5, hp6⟩

end DeepResearch
namespace DeepResearch

/-- The worker of the C2 counterexample session: one ReAct iteration
with one successful `fetch` of `https://example.com`. -/
def c2Fetch : SToolCall :=
  { tool_name := String.toList "fetch"
    arguments := [(String.toList "url", String.toList "https://example.com")]
    result := String.toList "page content"
    success := true
    duration_seconds := 1
    timestamp := []
    iteration := 1 }

def c2Iter : SReActIteration :=
  { iteration := 1
    thought := String.toList "Test thought"
    actions := [c2Fetch]
    observation := String.toList "Test observation"
    timestamp := [] }

def c2Worker : WorkerFullContext :=
  { task_id := String.toList "task_1"
    worker_id := String.toList "worker_1"
    objective := String.toList "Test objective"
    tools_available := [String.toList "search", String.toList "fetch"]
    expected_output := String.toList "Test output"
    react_iterations := [c2Iter]
    tool_calls := [c2Fetch]
    final_output := String.toList "Full worker output content"
    compressed_summary := String.toList "Compressed summary"
    sources := [String.toList "https://example.com"]
    status := String.toList "completed"
    duration_seconds := 10
    cost := 0 }

def c2Session : ResearchSession :=
  { session_id := String.toList "session_test"
    version := 1
    parent_session_id := none
    query := String.toList "Test query"
    complexity_score := 0
    workers := [c2Worker]
    report := String.toList "Test report content"
    status := String.toList "completed"
    cost := 0 }

set_option maxRecDepth 40000 in
/-- C2 counterexample: the session's only worker fetched
`https://example.com` (recorded in `sources`), but after a save/load
round trip the loader rebuilds `sources` from the parsed trace — whose
`arguments` dict is always empty — so the loaded worker's sources are
`[""]`, not `["https://example.com"]`. -/
theorem C2_counterexample :
    c2Session.workers.map (fun x => x.sources) =
      [[String.toList "https://example.com"]] ∧
    ((loadSession (writeSession [] c2Session) (String.toList "session_test") 1).toOption.map
      (fun z => z.workers.map (fun x => x.sources))) = some [[[]]] :=
  ⟨by decide, by decide⟩

/-- A benign worker (empty trace) for the C2 witness. -/
def c2bWorker : WorkerFullContext :=
  { task_id := String.toList "task_1"
    worker_id := String.toList "worker_1"
    objective := String.toList "Demo objective"
    tools_available := []
    expected_output := []
    final_output := String.toList "Answer text"
    compressed_summary := String.toList "Summary"
    status := String.toList "completed"
    duration_seconds := 1
    cost := 0 }

/-- A benign single-worker session for the C2 witness. -/
def c2bSession : ResearchSession :=
  { session_id := String.toList "session_b"
    version := 1
    parent_session_id := none
    query := String.toList "Demo query"
    complexity_score := 0
    workers := [c2bWorker]
    report := String.toList "Report"
    status := String.toList "completed"
    cost := 0 }

theorem C2_roundtrip_witness :
    c2bSession.workers = [c2bWorker] ∧
    (String.toList "task_").isPrefixOf c2bWorker.task_id = true ∧
    pyStrip c2bWorker.final_output = c2bWorker.final_output ∧
    (∃ loaded, loadSession (writeSession [] c2bSession) c2bSession.session_id
        c2bSession.version = .ok loaded ∧
      loaded.session_id = c2bSession.session_id ∧
      loaded.version = c2bSession.version ∧
      loaded.parent_session_id = c2bSession.parent_session_id ∧
      loaded.query = c2bSession.query ∧
      loaded.cost = c2bSession.cost ∧
      ∃ lw, loaded.workers = [lw] ∧ lw.task_id = c2bWorker.task_id ∧
        lw.worker_id = c2bWorker.worker_id ∧ lw.objective = c2bWorker.objective ∧
        lw.status = c2bWorker.status ∧ lw.final_output = c2bWorker.final_output ∧
        lw.sources = []) :=
  ⟨rfl, by decide, by decide,
    C2_roundtrip c2bSession c2bWorker rfl rfl (by decide) (by decide) (by decide)
      (by decide) (by decide) (by decide) (by decide) (by decide) (by decide)
      (by decide) (by decide) (by decide)⟩

end DeepResearch
